import Mathlib

set_option maxRecDepth 8000

/-!
Verification of the illustrator-structure-parser engine against its
natural-language specification.

The repository's core (ExtendScript / JSX) is shallowly embedded below:

* JS numbers that carry coordinates, sizes and confidences are modelled as
  rationals (`Rat`); JS 32-bit integer operations (`<<`, `&`) that occur in
  the DJB2 hash are modelled explicitly on `Int` with the two's-complement
  conversion written out (`jsToInt32`).
* JS strings are modelled as Lean `String`s of Unicode scalar values.  The
  sources only ever inspect characters of the Basic Multilingual Plane, where
  one UTF-16 code unit (what `charCodeAt`/`length` see) is one scalar value,
  so the two views agree on every input considered here.
* JS objects used as string-keyed dictionaries are modelled as association
  lists with first-binding lookup and in-place update, which preserves the
  insertion order that `for (var k in obj)` iterates in ExtendScript.
* `Array.prototype.sort(cmp)` is modelled as stable insertion sort placing
  `a` before `b` when `cmp a b ≤ 0` (`List.insertionSort` with the relation
  `fun a b => cmp a b ≤ 0`).  For a consistent comparator every conforming
  sort produces this order up to ties; for the one inconsistent comparator in
  the sources (repeat-group ordering) the ECMAScript result is
  implementation-defined and the insertion-sort model is one conforming
  implementation.
-/

/-! ## JS string and number primitives -/

/-- The whitespace class of the JS `\s` regex escape (the subset that can
occur in the documents handled here: space, tab, CR, LF, vertical tab, form
feed, no-break space). -/
def jsSpace (c : Char) : Bool :=
  c = ' ' || c = '\t' || c = '\n' || c = '\r' ||
  c = Char.ofNat 0x0b || c = Char.ofNat 0x0c || c = Char.ofNat 0xa0

/-- `content.replace(/^\s+|\s+$/g, "")`: strip leading and trailing
whitespace. -/
def jsTrim (s : String) : String :=
  ⟨(s.data.dropWhile jsSpace).reverse.dropWhile jsSpace |>.reverse⟩

/-- `str.replace(/\s+/g, "")`: remove every whitespace character. -/
def jsStripSpace (s : String) : String :=
  ⟨s.data.filter (fun c => !jsSpace c)⟩

/-- One digit of a JS `Number.prototype.toString(radix)` rendering
(lowercase letters for values 10–15). -/
def jsDigitChar (d : Nat) : Char :=
  match d with
  | 0 => '0' | 1 => '1' | 2 => '2' | 3 => '3' | 4 => '4'
  | 5 => '5' | 6 => '6' | 7 => '7' | 8 => '8' | 9 => '9'
  | 10 => 'a' | 11 => 'b' | 12 => 'c' | 13 => 'd' | 14 => 'e'
  | _ => 'f'

/-- Structural (fuel-indexed) digit renderer, so that terms reduce inside
the kernel; `fuel > n` always suffices because `n / b` shrinks. -/
def natDigitsAux (b : Nat) : Nat → Nat → List Char
  | 0, _ => []
  | fuel + 1, n =>
    if n < b then [jsDigitChar n]
    else natDigitsAux b fuel (n / b) ++ [jsDigitChar (n % b)]

/-- Decimal digit list of a nonnegative JS number, most significant first:
the output of `String(n)` for a nonnegative integer `n`. -/
def natDecDigits (n : Nat) : List Char := natDigitsAux 10 (n + 1) n

/-- The string a JS runtime prints for a nonnegative integer number. -/
def jsNatRepr (n : Nat) : String := ⟨natDecDigits n⟩

/-- `String(i)` for an integer-valued JS number (`Math.round` results). -/
def jsIntRepr (i : Int) : String :=
  if i < 0 then "-" ++ jsNatRepr i.natAbs else jsNatRepr i.toNat

/-- Hexadecimal digit list of a nonnegative JS number, most significant
first: `n.toString(16)` for a nonnegative integer `n`. -/
def natHexDigits (n : Nat) : List Char := natDigitsAux 16 (n + 1) n

/-- `n.toString(16)` for a nonnegative integer JS number. -/
def jsHexRepr (n : Nat) : String := ⟨natHexDigits n⟩

/-- ECMAScript `ToInt32`: reduce modulo `2^32` into `[-2^31, 2^31)`.  Applied
by JS to both operands of `<<` and `&`. -/
def jsToInt32 (x : Int) : Int :=
  let m := x % (2 ^ 32)
  if m < 2 ^ 31 then m else m - 2 ^ 32

/-- First-binding lookup in a JS-object model (`obj[k]`). -/
def assocLookup {α : Type} (m : List (String × α)) (k : String) : Option α :=
  (m.find? (fun p => p.1 = k)).map (·.2)

/-- JS-object assignment `obj[k] = v`: overwrite the existing binding in
place (key order is preserved), else append a new binding. -/
def assocSet {α : Type} (m : List (String × α)) (k : String) (v : α) :
    List (String × α) :=
  match m with
  | [] => [(k, v)]
  | (k', v') :: rest =>
    if k' = k then (k', v) :: rest else (k', v') :: assocSet rest k v

/-! Basic facts about the primitives. -/

theorem jsDigitChar_lt_inj :
    ∀ d₁ < 16, ∀ d₂ < 16, jsDigitChar d₁ = jsDigitChar d₂ → d₁ = d₂ := by
  decide

theorem natDigitsAux_irrel (b : Nat) (hb : 2 ≤ b) :
    ∀ f₁ : Nat, ∀ n < f₁, ∀ f₂, n < f₂ →
      natDigitsAux b f₁ n = natDigitsAux b f₂ n := by
  intro f₁
  induction f₁ with
  | zero => intro n hn; omega
  | succ f ih =>
    intro n hn f₂ hn₂
    rcases f₂ with _ | f₂'
    · omega
    · rw [natDigitsAux, natDigitsAux]
      by_cases h : n < b
      · rw [if_pos h, if_pos h]
      · rw [if_neg h, if_neg h]
        have hdiv : n / b < n := Nat.div_lt_self (by omega) (by omega)
        rw [ih (n / b) (by omega) f₂' (by omega)]

theorem natDecDigits_lt {n : Nat} (hn : n < 10) :
    natDecDigits n = [jsDigitChar n] := by
  rw [natDecDigits, natDigitsAux, if_pos hn]

theorem natDecDigits_ge {n : Nat} (hn : ¬n < 10) :
    natDecDigits n = natDecDigits (n / 10) ++ [jsDigitChar (n % 10)] := by
  rw [natDecDigits, natDecDigits, natDigitsAux, if_neg hn]
  rw [natDigitsAux_irrel 10 (by omega) n (n / 10)
    (Nat.lt_of_lt_of_le (Nat.div_lt_self (by omega) (by omega)) (by omega))
    (n / 10 + 1) (Nat.lt_succ_self _)]

theorem natDecDigits_ne_nil (n : Nat) : natDecDigits n ≠ [] := by
  by_cases h : n < 10
  · rw [natDecDigits_lt h]
    simp
  · rw [natDecDigits_ge h]
    simp

theorem natDecDigits_inj :
    ∀ m n : Nat, natDecDigits m = natDecDigits n → m = n := by
  intro m
  induction m using Nat.strong_induction_on with
  | _ m ih =>
    intro n h
    by_cases hm : m < 10 <;> by_cases hn : n < 10
    · rw [natDecDigits_lt hm, natDecDigits_lt hn] at h
      exact jsDigitChar_lt_inj m (by omega) n (by omega)
        (List.cons_eq_cons.mp h).1
    · rw [natDecDigits_lt hm, natDecDigits_ge hn] at h
      have hl := congrArg List.length h
      simp only [List.length_cons, List.length_nil, List.length_append] at hl
      have h0 : (natDecDigits (n / 10)).length = 0 := by omega
      exact absurd (List.length_eq_zero.mp h0) (natDecDigits_ne_nil _)
    · rw [natDecDigits_ge hm, natDecDigits_lt hn] at h
      have hl := congrArg List.length h
      simp only [List.length_cons, List.length_nil, List.length_append] at hl
      have h0 : (natDecDigits (m / 10)).length = 0 := by omega
      exact absurd (List.length_eq_zero.mp h0) (natDecDigits_ne_nil _)
    · rw [natDecDigits_ge hm, natDecDigits_ge hn] at h
      have h' := congrArg List.reverse h
      simp only [List.reverse_append, List.reverse_cons, List.reverse_nil,
        List.nil_append, List.cons_append, List.cons.injEq] at h'
      obtain ⟨hdig, htail⟩ := h'
      have hdiv : m / 10 = n / 10 := by
        have h2 := congrArg List.reverse htail
        simp only [List.reverse_reverse] at h2
        exact ih (m / 10) (Nat.div_lt_self (by omega) (by omega)) _ h2
      have hmod : m % 10 = n % 10 :=
        jsDigitChar_lt_inj _ (by omega) _ (by omega) hdig
      omega

theorem jsNatRepr_inj {m n : Nat} (h : jsNatRepr m = jsNatRepr n) : m = n := by
  apply natDecDigits_inj
  simpa [jsNatRepr, String.ext_iff] using h

/-! ## A small regular-expression evaluator

`MultiTagDetector.detectText` applies its precompiled regexes with `.test`
(unanchored search, backtracking existence semantics).  The patterns only use
character classes, literals, alternation, `?`, bounded repetition `{n,m}`,
`+` and `*` over classes, so a complete evaluator is small: `matchEnds re s`
returns the list of suffixes of `s` that remain after some match of `re`
consumed a prefix of `s`, and `.test` holds iff some start position admits a
match. -/

inductive RE where
  | cls (p : Char → Bool)
  | lit (cs : List Char)
  | seq (a b : RE)
  | alt (a b : RE)
  | opt (a : RE)
  | rep (p : Char → Bool) (lo hi : Nat)
  | star (p : Char → Bool)
  | plus (p : Char → Bool)

/-- Remaining suffix after matching a literal character sequence. -/
def litEnds : List Char → List Char → Option (List Char)
  | [], s => some s
  | _ :: _, [] => none
  | c :: cs, c' :: s => if c = c' then litEnds cs s else none

/-- The suffixes `s.drop k` for `k` ranging over `[lo, hi]`. -/
def dropsFromTo (s : List Char) (lo hi : Nat) : List (List Char) :=
  (List.range' lo (hi + 1 - lo)).map (fun k => s.drop k)

/-- All suffixes of `s` left over after some way of matching `re` against a
prefix of `s`. -/
def matchEnds : RE → List Char → List (List Char)
  | .cls _, [] => []
  | .cls p, c :: s => if p c then [s] else []
  | .lit cs, s =>
    match litEnds cs s with
    | some r => [r]
    | none => []
  | .seq a b, s => (matchEnds a s).flatMap (matchEnds b)
  | .alt a b, s => matchEnds a s ++ matchEnds b s
  | .opt a, s => s :: matchEnds a s
  | .rep p lo hi, s => dropsFromTo s lo (min hi (s.takeWhile p).length)
  | .star p, s => dropsFromTo s 0 (s.takeWhile p).length
  | .plus p, s => dropsFromTo s 1 (s.takeWhile p).length

/-- `re.test(s)`: some start position of `s` admits a match. -/
def reTest (re : RE) (s : String) : Bool :=
  s.data.tails.any (fun t => !(matchEnds re t).isEmpty)

/-- A single-character regex. -/
def chr (c : Char) : RE := .cls (fun c' => c' = c)

/-- A character class listing its members. -/
def oneOf (cs : List Char) : RE := .cls (fun c => cs.contains c)

/-- A literal string regex. -/
def strLit (s : String) : RE := .lit s.data

/-- Concatenation of a nonempty pattern list. -/
def reCat : List RE → RE
  | [] => .lit []
  | [r] => r
  | r :: rs => .seq r (reCat rs)

/-- Alternation of a nonempty pattern list. -/
def reAlts : List RE → RE
  | [] => .cls (fun _ => false)
  | [r] => r
  | r :: rs => .alt r (reAlts rs)

/-- JS `\d`. -/
def isDigitChar (c : Char) : Bool := c.isDigit

/-- JS `\w` (`[A-Za-z0-9_]`). -/
def isWordChar (c : Char) : Bool := c.isAlpha || c.isDigit || c = '_'

/-! The nine precompiled regexes of `MultiTagDetector.init`
(`this.compiledRegex`, the ones `detectText` actually tests). -/

/-- `/\d{4}[.\-\/年]\d{1,2}[.\-\/月]\d{1,2}/` -/
def reDate : RE :=
  reCat [.rep isDigitChar 4 4, oneOf ['.', '-', '/', '年'],
    .rep isDigitChar 1 2, oneOf ['.', '-', '/', '月'], .rep isDigitChar 1 2]

/-- `/\d{1,2}:\d{2}/` -/
def reTime : RE :=
  reCat [.rep isDigitChar 1 2, chr ':', .rep isDigitChar 2 2]

/-- `/1[3-9]\d{9}/` -/
def rePhone : RE :=
  reCat [chr '1', oneOf ['3', '4', '5', '6', '7', '8', '9'],
    .rep isDigitChar 9 9]

/-- `/[\w.-]+@[\w.-]+\.\w+/` -/
def reEmail : RE :=
  let ec : Char → Bool := fun c => isWordChar c || c = '.' || c = '-'
  reCat [.plus ec, chr '@', .plus ec, chr '.', .plus isWordChar]

/-- `/[¥￥$€]\s*[\d,]+/` -/
def rePrice : RE :=
  reCat [oneOf ['¥', '￥', '$', '€'], .star jsSpace,
    .plus (fun c => c.isDigit || c = ',')]

/-- `/\d+(\.\d+)?\s*%/` -/
def rePercent : RE :=
  reCat [.plus isDigitChar, .opt (.seq (chr '.') (.plus isDigitChar)),
    .star jsSpace, chr '%']

/-- `/创始人|CEO|CTO|COO|CFO|总裁|董事|总监|经理|主任|教授|博士|院士|专家|顾问/` -/
def reTitle : RE :=
  reAlts (["创始人", "CEO", "CTO", "COO", "CFO", "总裁", "董事", "总监",
    "经理", "主任", "教授", "博士", "院士", "专家", "顾问"].map strLit)

/-- `/微信[:：]?\s*\w+/` -/
def reWechat : RE :=
  reCat [strLit "微信", .opt (oneOf [':', '：']), .star jsSpace,
    .plus isWordChar]

/-- `/省|市|区|县|街道|路|号|楼|室|大厦|广场/` -/
def reAddress : RE :=
  reAlts (["省", "市", "区", "县", "街道", "路", "号", "楼", "室",
    "大厦", "广场"].map strLit)

/-! ## Multi-tag text detector (`src/lib/variable_detector_v2.jsx`) -/

/-- One entry of the `VAR_TYPES` table. -/
structure VarType where
  key : String
  category : String
  label : String
  priority : Nat
deriving DecidableEq

/-- The `VAR_TYPES` entries referenced by `detectText`. -/
def VT_DATE : VarType := ⟨"date", "time", "日期", 1⟩

def VT_TIME : VarType := ⟨"time", "time", "时间", 2⟩

def VT_PHONE : VarType := ⟨"phone", "contact", "电话", 1⟩

def VT_EMAIL : VarType := ⟨"email", "contact", "邮箱", 1⟩

def VT_PRICE : VarType := ⟨"price", "number", "价格", 1⟩

def VT_PERCENT : VarType := ⟨"percent", "number", "百分比", 2⟩

def VT_PERSON_TITLE : VarType := ⟨"title", "person", "职位", 2⟩

def VT_WECHAT : VarType := ⟨"wechat", "contact", "微信", 2⟩

def VT_ADDRESS : VarType := ⟨"address", "contact", "地址", 2⟩

def VT_PERSON_NAME : VarType := ⟨"name", "person", "人名", 1⟩

def VT_EVENT_TITLE : VarType := ⟨"event_title", "event", "活动标题", 1⟩

def VT_SLOGAN : VarType := ⟨"slogan", "event", "口号标语", 2⟩

def VT_TEXT : VarType := ⟨"text", "generic", "文本", 3⟩

/-- One tag pushed by `detectText`. -/
structure Tag where
  ttype : String
  varType : VarType
  confidence : Rat
deriving DecidableEq

/-- `MultiTagDetector.isChineseName`: after removing all whitespace, 2 to 4
characters, each with code in `[0x4e00, 0x9fa5]`.  There is no exclusion
keyword list in this detector. -/
def isChineseName (s : String) : Bool :=
  if s = "" then false
  else
    let cleaned := (jsStripSpace s).data
    if cleaned.length < 2 || 4 < cleaned.length then false
    else cleaned.all (fun c => 0x4e00 ≤ c.toNat && c.toNat ≤ 0x9fa5)

/-- `str.indexOf(kw) >= 0`. -/
def jsIncludes (s kw : String) : Bool :=
  s.data.tails.any (fun t => kw.data.isPrefixOf t)

/-- `MultiTagDetector.isEventTitle`. -/
def isEventTitle (s : String) : Bool :=
  if s = "" || s.length < 4 then false
  else
    ["年会", "大会", "峰会", "论坛", "发布会", "颁奖", "典礼",
      "晚宴", "庆典", "仪式", "盛典", "活动", "会议", "展览",
      "展会"].any (jsIncludes s)

/-- `MultiTagDetector.isSlogan`. -/
def isSlogan (s : String) : Bool :=
  if s = "" || s.length < 4 || 30 < s.length then false
  else if ["周年", "之夜", "荣耀", "同行", "共赢", "携手", "共创",
      "未来"].any (jsIncludes s) then true
  else jsIncludes s "第" && jsIncludes s "届"

/-- `if (cond) tags.push(t)` contributes `[t]` or nothing. -/
def tagIf (b : Bool) (t : Tag) : List Tag := if b then [t] else []

/-- The tag pushes of `detectText` in source order (regex rules, then name,
event title and slogan detection), before the generic fallback. -/
def rawTags (trimmed : String) : List Tag :=
  tagIf (reTest reDate trimmed) ⟨"date", VT_DATE, mkRat 95 100⟩ ++
  tagIf (reTest reTime trimmed) ⟨"time", VT_TIME, mkRat 9 10⟩ ++
  tagIf (reTest rePhone trimmed) ⟨"phone", VT_PHONE, mkRat 95 100⟩ ++
  tagIf (reTest reEmail trimmed) ⟨"email", VT_EMAIL, mkRat 95 100⟩ ++
  tagIf (reTest rePrice trimmed) ⟨"price", VT_PRICE, mkRat 9 10⟩ ++
  tagIf (reTest rePercent trimmed) ⟨"percent", VT_PERCENT, mkRat 9 10⟩ ++
  tagIf (reTest reTitle trimmed) ⟨"title", VT_PERSON_TITLE, mkRat 85 100⟩ ++
  tagIf (reTest reWechat trimmed) ⟨"wechat", VT_WECHAT, mkRat 9 10⟩ ++
  tagIf (reTest reAddress trimmed) ⟨"address", VT_ADDRESS, mkRat 75 100⟩ ++
  tagIf (isChineseName trimmed) ⟨"name", VT_PERSON_NAME, mkRat 85 100⟩ ++
  tagIf (isEventTitle trimmed) ⟨"event_title", VT_EVENT_TITLE, mkRat 85 100⟩ ++
  tagIf (isSlogan trimmed) ⟨"slogan", VT_SLOGAN, mkRat 75 100⟩

/-- All tags including the generic-text fallback, which fires only when no
other tag was pushed and the trimmed content has at least 2 characters
(confidence 0.4 above 50 characters, else 0.5; rational constants are written
with `mkRat` so that terms evaluate by kernel reduction). -/
def textTags (trimmed : String) : List Tag :=
  let base := rawTags trimmed
  base ++ tagIf (base.isEmpty && decide (2 ≤ trimmed.length))
    ⟨"text", VT_TEXT, if 50 < trimmed.length then mkRat 4 10 else mkRat 5 10⟩

/-- The descending-confidence order of `tags.sort((a, b) => b.confidence -
a.confidence)`: `a` may stay before `b` iff the comparator is `≤ 0`. -/
def tagOrder (a b : Tag) : Prop := b.confidence ≤ a.confidence

instance : DecidableRel tagOrder :=
  fun a b => inferInstanceAs (Decidable (b.confidence ≤ a.confidence))

/-- The record returned by `detectText`. -/
structure DetectResult where
  tags : List Tag
  primaryType : Option VarType
  allTypes : List String
  maxConfidence : Rat
deriving DecidableEq

/-- `MultiTagDetector.detectText` (a `null` JS argument is falsy exactly
like the empty string and takes the same early return). -/
def detectText (content : String) : DetectResult :=
  if content = "" then ⟨[], none, [], 0⟩
  else
    let trimmed := jsTrim content
    let tags := List.insertionSort tagOrder (textTags trimmed)
    ⟨tags, tags.head?.map (·.varType), tags.map (·.ttype),
      (tags.head?.map (·.confidence)).getD 0⟩


/-! ## Reducible rational arithmetic

`Rat.add`, `Rat.sub` and scientific literals are irreducible in this
library, which blocks kernel evaluation of concrete instances.  The
embeddings therefore use the equivalent `mkRat` forms below; the bridge
lemmas relate them to the standard operations. -/

/-- Addition of JS numbers, in reducible form. -/
def ratAdd (a b : Rat) : Rat :=
  mkRat (a.num * b.den + b.num * a.den) (a.den * b.den)

/-- Subtraction of JS numbers, in reducible form. -/
def ratSub (a b : Rat) : Rat :=
  mkRat (a.num * b.den - b.num * a.den) (a.den * b.den)

/-- `Math.abs` on a JS number. -/
def jsAbs (q : Rat) : Rat := if q < 0 then -q else q

/-- `Math.round(x)` on a JS number: `⌊x + 1/2⌋` (half-way cases round toward
positive infinity, also for negative inputs), written with the reducible
operations. -/
def jsRound (q : Rat) : Int := (ratAdd q (mkRat 1 2)).floor

theorem ratAdd_eq (a b : Rat) : ratAdd a b = a + b := by
  unfold ratAdd
  rw [Rat.add_def']

theorem ratSub_eq (a b : Rat) : ratSub a b = a - b := by
  unfold ratSub
  rw [Rat.sub_def']

theorem jsRound_eq (q : Rat) : jsRound q = ⌊q + (1 : Rat) / 2⌋ := by
  unfold jsRound
  rw [ratAdd_eq, show mkRat 1 2 = (1 : Rat) / 2 by
    rw [Rat.mkRat_eq_div]
    norm_num]
  rw [Rat.floor_def', Rat.floor_def]

theorem jsAbs_eq (q : Rat) : jsAbs q = |q| := by
  unfold jsAbs
  rcases lt_trichotomy q 0 with h | h | h
  · rw [if_pos h, abs_of_neg h]
  · simp [h]
  · rw [if_neg (not_lt.mpr h.le), abs_of_nonneg h.le]

/-! ## Variable namer (`src/lib/variable_detector_v2.jsx`, `VariableNamer`) -/

/-- The namer's mutable per-key counter table (`this.counters`). -/
structure NamerState where
  counters : List (String × Nat)
deriving DecidableEq

/-- `VariableNamer.reset`. -/
def namerReset : NamerState := ⟨[]⟩

/-- JS truthiness of an optional string (`undefined` and `""` are falsy). -/
def strTruthy : Option String → Bool
  | none => false
  | some s => s ≠ ""

/-- `VariableNamer.generateId(patternName, fieldType, index)`.  `index` is an
`Option` because the source distinguishes `undefined` from any number
(including `0`) with `index !== undefined`.  A JS `undefined` interpolated
into a string prints as `"undefined"`. -/
def generateId (patternName fieldType : Option String) (index : Option Nat)
    (st : NamerState) : String × NamerState :=
  let fieldStr := match fieldType with
    | some s => s
    | none => "undefined"
  if strTruthy patternName && index.isSome then
    ((patternName.getD "") ++ "_" ++ jsNatRepr (index.getD 0) ++ "." ++
      fieldStr, st)
  else if strTruthy patternName then
    ((patternName.getD "") ++ "." ++ fieldStr, st)
  else
    let key := if strTruthy fieldType then fieldType.getD "" else "item"
    let cnt := (assocLookup st.counters key).getD 0
    (key ++ "_" ++ jsNatRepr cnt, ⟨assocSet st.counters key (cnt + 1)⟩)

/-- `k` successive standalone allocations (`generateId(null, key, null)`)
for one type-key, returning the emitted ids in order. -/
def allocStandalone (key : String) : Nat → NamerState → List String × NamerState
  | 0, st => ([], st)
  | n + 1, st =>
    let (id, st') := generateId none (some key) none st
    let (ids, st'') := allocStandalone key n st'
    (id :: ids, st'')

/-! ## Stable identity generator (`src/unnamed/part_005`, `IdGenerator`) -/

/-- The fields of an Illustrator item that `IdGenerator.hashContent` reads.
`position` and the dimensions are JS numbers; `contents` is `none` for items
that have no text. -/
structure HashItem where
  typename : String
  posX : Rat
  posY : Rat
  width : Rat
  height : Rat
  contents : Option String
deriving DecidableEq

/-- The `context` argument of `hashContent`.  `context.layerIndex || 0`
yields `layerIndex` for any number the extractor passes (`0` is falsy but
`|| 0` then still produces `0`). -/
structure HashCtx where
  layerIndex : Nat
  path : String
deriving DecidableEq

/-- The text component of the hash key: for a `TextFrame` with truthy
contents, a separator and the first 20 characters of the text; empty
otherwise. -/
def contentKey (item : HashItem) : String :=
  if item.typename = "TextFrame" && strTruthy item.contents then
    "|" ++ ⟨(item.contents.getD "").data.take 20⟩
  else ""

/-- The key string concatenated by `IdGenerator.hashContent` before hashing:
typename, rounded position, rounded size, layer index, structural path and,
for a text frame with nonempty contents, the first 20 characters of the
text. -/
def hashKey (item : HashItem) (ctx : HashCtx) : String :=
  item.typename ++
  "|" ++ jsIntRepr (jsRound item.posX) ++ "," ++ jsIntRepr (jsRound item.posY) ++
  "|" ++ jsIntRepr (jsRound item.width) ++ "x" ++ jsIntRepr (jsRound item.height) ++
  "|" ++ jsNatRepr ctx.layerIndex ++
  "|" ++ ctx.path ++
  contentKey item

/-- One step of the source's DJB2 loop with JS 32-bit semantics spelled out:
`hash = ((hash << 5) + hash) + c` followed by `hash = hash & 0x7FFFFFFF`.
`<<` applies `ToInt32` to its (here already in-range) operand and returns a
signed 32-bit value; `&` applies `ToInt32` to both operands, and masking a
32-bit value with `0x7FFFFFFF` is reduction mod `2^31` of its unsigned
reading, i.e. `(jsToInt32 v).emod (2^31)` after the conversion. -/
def djb2Step (h : Int) (c : Nat) : Int :=
  let shifted := jsToInt32 (h * 32)
  let sum := shifted + h + c
  jsToInt32 sum % (2 ^ 31)

/-- `IdGenerator.hashContent`: DJB2 over the key string (seed 5381),
rendered in hexadecimal. -/
def hashContent (item : HashItem) (ctx : HashCtx) : String :=
  jsHexRepr (((hashKey item ctx).data.foldl
    (fun h c => djb2Step h c.toNat) 5381).toNat)

/-- `IdGenerator.generateStableId`: lowercased typename, underscore, hash. -/
def generateStableId (item : HashItem) (ctx : HashCtx) : String :=
  (item.typename.toLower) ++ "_" ++ hashContent item ctx

/-- The mathematical 31-bit DJB2 step the spec describes:
multiply by 33, add the character code, keep the low 31 bits. -/
def djb2SpecStep (h : Nat) (c : Nat) : Nat := (33 * h + c) % 2 ^ 31

/-- The mathematical 31-bit DJB2 hash of a string, seed 5381. -/
def djb2Spec (s : String) : Nat := s.data.foldl (fun h c => djb2SpecStep h c.toNat) 5381

/-! ## Integrity checker (`src/unnamed/part_005`, `IntegrityChecker`) -/

/-- One entry pushed into `duplicates`: `{ id: id, indices: [ids[id], i] }`. -/
structure DupEntry where
  dupId : String
  firstIndex : Nat
  secondIndex : Nat
deriving DecidableEq

/-- The record returned by `checkIdUniqueness`. -/
structure IdCheckResult where
  unique : Bool
  duplicates : List DupEntry
  totalIds : Nat
deriving DecidableEq

/-- The loop of `checkIdUniqueness` over the indexed element list.  The JS
guard is `if (ids[id])`, a truthiness test on the stored *index*: a stored
index `0` is falsy and takes the `else` branch `ids[id] = i`, exactly like an
absent binding. -/
def checkIdLoop : List (Nat × String) → List (String × Nat) → List DupEntry →
    List (String × Nat) × List DupEntry
  | [], ids, dups => (ids, dups)
  | (i, elemId) :: rest, ids, dups =>
    match assocLookup ids elemId with
    | some j =>
      if j ≠ 0 then checkIdLoop rest ids (dups ++ [⟨elemId, j, i⟩])
      else checkIdLoop rest (assocSet ids elemId i) dups
    | none => checkIdLoop rest (assocSet ids elemId i) dups

/-- `IntegrityChecker.checkIdUniqueness`, applied to the `id` fields of the
flattened element list (the function reads nothing else of an element). -/
def checkIdUniqueness (elementIds : List String) : IdCheckResult :=
  let r := checkIdLoop elementIds.enum [] []
  ⟨r.2.isEmpty, r.2, r.1.length⟩

/-- An element's `bounds` record as read by `checkBounds`. -/
structure JSBounds where
  left : Rat
  top : Rat
  right : Rat
  bottom : Rat
deriving DecidableEq

/-- The element fields read by `checkBounds`; elements produced without a
`bounds` field carry `none` and are skipped by the loop's
`if (!elem.bounds) continue`. -/
structure BElem where
  id : String
  etype : String
  bounds : Option JSBounds
deriving DecidableEq

/-- An `outOfBounds` entry (`reason` is the constant the source pushes). -/
structure OOBEntry where
  elementId : String
  elementType : String
  bounds : JSBounds
  reason : String
deriving DecidableEq

/-- A `partiallyVisible` entry. -/
structure PVEntry where
  elementId : String
  elementType : String
  bounds : JSBounds
deriving DecidableEq

/-- First branch of the loop: the bounds lie entirely outside the artboard
enlarged by the 10-unit margin on one of the axes. -/
def fullyOutside (w h : Rat) (b : JSBounds) : Bool :=
  b.right < -(mkRat 10 1) || ratAdd w (mkRat 10 1) < b.left ||
  b.bottom < -(mkRat 10 1) || ratAdd h (mkRat 10 1) < b.top

/-- Second branch: some edge crosses the tolerance band. -/
def crossesBand (w h : Rat) (b : JSBounds) : Bool :=
  b.left < -(mkRat 10 1) || ratAdd w (mkRat 10 1) < b.right ||
  b.top < -(mkRat 10 1) || ratAdd h (mkRat 10 1) < b.bottom

/-- The record returned by `checkBounds` (`artboardSize` flattened into its
two components). -/
structure BoundsCheckResult where
  valid : Bool
  outOfBounds : List OOBEntry
  partiallyVisible : List PVEntry
  fullyVisible : Nat
  artboardWidth : Rat
  artboardHeight : Rat
deriving DecidableEq

/-- The element loop of `checkBounds`, accumulating the two entry lists in
push order and the `fullyVisible` counter. -/
def checkBoundsLoop (w h : Rat) : List BElem →
    List OOBEntry × List PVEntry × Nat
  | [] => ([], [], 0)
  | e :: rest =>
    let acc := checkBoundsLoop w h rest
    match e.bounds with
    | none => acc
    | some b =>
      if fullyOutside w h b then
        (⟨e.id, e.etype, b, "完全在画板外"⟩ :: acc.1, acc.2.1, acc.2.2)
      else if crossesBand w h b then
        (acc.1, ⟨e.id, e.etype, b⟩ :: acc.2.1, acc.2.2)
      else (acc.1, acc.2.1, acc.2.2 + 1)

/-- `IntegrityChecker.checkBounds` against an effective artboard of size
`w × h` (the source substitutes the active artboard's size for the document
size when `CoordinateSystem` has one; both reach this code as the pair of
numbers compared against). -/
def checkBounds (elems : List BElem) (w h : Rat) : BoundsCheckResult :=
  let acc := checkBoundsLoop w h elems
  ⟨acc.1.isEmpty, acc.1, acc.2.1, acc.2.2, w, h⟩

/-! ## Pattern matcher (`src/lib/pattern_matcher.jsx`) -/

/-- One entry of the `COMPOSITE_PATTERNS` catalog, with the fields
`matchPattern` reads.  The decorative fields `layout`, `zoneHint`,
`maxSpacing` and `minCount` are never consulted by the matching code and are
omitted. -/
structure PatternDef where
  id : String
  label : String
  category : String
  required : List String
  optional : List String
  repeatable : Bool
  minFields : Option Nat
deriving DecidableEq

/-- The `COMPOSITE_PATTERNS` catalog in source (= `for..in` iteration)
order. -/
def COMPOSITE_PATTERNS : List PatternDef :=
  [⟨"guest", "嘉宾卡片", "person", ["avatar", "name"],
      ["title", "desc", "company"], true, none⟩,
    ⟨"member", "团队成员", "person", ["name", "title"],
      ["desc", "phone", "email"], true, none⟩,
    ⟨"testimonial", "用户评价", "person", ["text", "name"],
      ["avatar", "title", "company"], true, none⟩,
    ⟨"header", "活动头部", "event", ["event_title"],
      ["date", "slogan", "logo"], false, none⟩,
    ⟨"agenda", "议程项", "event", ["time", "text"],
      ["name", "title"], true, none⟩,
    ⟨"schedule", "时间地点", "event", ["date"],
      ["time", "address", "qrcode"], false, none⟩,
    ⟨"price", "价格卡片", "product", ["price"],
      ["text", "desc", "percent"], true, none⟩,
    ⟨"feature", "特性项", "product", ["text"],
      ["icon", "desc"], true, none⟩,
    ⟨"product", "产品卡片", "product", ["photo", "text"],
      ["price", "desc"], true, none⟩,
    ⟨"contact", "联系信息", "contact", ["phone"],
      ["email", "address", "wechat", "qq", "qrcode"], false, some 2⟩,
    ⟨"social", "社交媒体", "contact", ["icon"],
      ["text"], true, none⟩,
    ⟨"stat", "数据统计", "layout", ["number"],
      ["text", "percent"], true, none⟩,
    ⟨"step", "步骤项", "layout", ["number", "text"],
      ["icon", "desc"], true, none⟩,
    ⟨"list", "列表项", "layout", ["text"],
      ["icon"], true, none⟩,
    ⟨"brand", "品牌展示", "layout", ["logo"],
      ["text"], true, none⟩]

/-- All `required` keys of `d` are bound in the child tag map to a nonempty
record list (`!childTags[r] || childTags[r].length === 0` fails the
definition).  The record type `α` is opaque to the matcher. -/
def requiredOk {α : Type} (d : PatternDef) (tags : List (String × List α)) :
    Bool :=
  d.required.all (fun r =>
    match assocLookup tags r with
    | some l => !l.isEmpty
    | none => false)

/-- Number of `optional` keys present in the tag map (a bound empty list is
a truthy JS array and still counts). -/
def optionalCount {α : Type} (d : PatternDef)
    (tags : List (String × List α)) : Nat :=
  (d.optional.filter (fun o => (assocLookup tags o).isSome)).length

/-- `pattern.minFields && required.length + optionalCount < pattern.minFields`:
the guard that rejects a definition with a truthy `minFields`. -/
def minFieldsFail (d : PatternDef) (optCount : Nat) : Bool :=
  match d.minFields with
  | some m => decide (0 < m) && decide (d.required.length + optCount < m)
  | none => false

/-- The record a key binds in `fields`: `childTags[k][0]` — the first
record of the key's list, JS `undefined` (`none`) when the list is empty. -/
def valFn {α : Type} (tags : List (String × List α)) (k : String) :
    Option α :=
  (assocLookup tags k).bind List.head?

/-- The combined match test of the catalog loop: all required keys bound
nonempty, and the `minFields` guard not rejecting. -/
def matchCond {α : Type} (d : PatternDef)
    (tags : List (String × List α)) : Bool :=
  requiredOk d tags && !minFieldsFail d (optionalCount d tags)

/-- The `fields` object built on a successful match: every required key
bound to record 0 of its list, then every present optional key bound to
record 0 of its list (an empty optional list binds JS `undefined`, here
`none`). -/
def buildFields {α : Type} (d : PatternDef)
    (tags : List (String × List α)) : List (String × Option α) :=
  let f1 := d.required.foldl (fun acc r => assocSet acc r (valFn tags r)) []
  d.optional.foldl
    (fun acc o =>
      if (assocLookup tags o).isSome then assocSet acc o (valFn tags o)
      else acc) f1

/-- The match record returned by `matchPattern` (the group's `path`,
`position` and `size` are copied through unchanged and are not modelled
here; `repeatIndex` starts at 0 and is updated later). -/
structure PatMatch (α : Type) where
  patternId : String
  patternLabel : String
  groupId : String
  fields : List (String × Option α)
  repeatable : Bool
  repeatIndex : Nat
deriving DecidableEq

/-- The catalog loop of `matchPattern`: first matching definition wins. -/
def matchPatternAux {α : Type} (gid : String)
    (tags : List (String × List α)) : List PatternDef → Option (PatMatch α)
  | [] => none
  | d :: ds =>
    if matchCond d tags then
      some ⟨d.id, d.label, gid, buildFields d tags, d.repeatable, 0⟩
    else matchPatternAux gid tags ds

/-- `PatternMatcher.matchPattern` on one container's child tag map. -/
def matchPattern {α : Type} (gid : String)
    (tags : List (String × List α)) : Option (PatMatch α) :=
  matchPatternAux gid tags COMPOSITE_PATTERNS

/-- The fields of a match that `detectRepeatablePatterns` reads and writes:
its `patternId`, its group `position`, and the repeat bookkeeping
(`repeatTotal` is absent until the function sets it). -/
structure RMatch where
  patternId : String
  x : Rat
  y : Rat
  repeatIndex : Nat
  repeatTotal : Option Nat
deriving DecidableEq

/-- The comparator passed to `group.sort`: the signed `y` difference when
its magnitude exceeds 20, else the signed `x` difference. -/
def rmatchCmpVal (a b : RMatch) : Rat :=
  let yDiff := ratSub a.y b.y
  if mkRat 20 1 < jsAbs yDiff then yDiff else ratSub a.x b.x

/-- A stable sort keeps `a` no later than `b` iff the comparator is `≤ 0`.
The sort operates on index-tagged matches: the index models JS object
identity, so that equal-valued matches stay distinguishable the way two
distinct mutated objects are. -/
def rmatchLe (a b : Nat × RMatch) : Prop := rmatchCmpVal a.2 b.2 ≤ 0

instance : DecidableRel rmatchLe :=
  fun a b => inferInstanceAs (Decidable (rmatchCmpVal a.2 b.2 ≤ 0))

/-- Position of the first occurrence of `x` in a list (used to name the
slot an in-place-mutated object occupies in the sorted array). -/
def idxOf {β : Type} [DecidableEq β] (x : β) : List β → Nat
  | [] => 0
  | y :: t => if y = x then 0 else idxOf x t + 1

/-- `PatternMatcher.detectRepeatablePatterns`.  The source groups matches by
`patternId`, sorts each group of size `> 1` with the comparator above, and
mutates each member's `repeatIndex`/`repeatTotal` in place, returning the
original array (original order, updated objects).  Functionally: each match
is mapped to its updated copy; its `repeatIndex` is its position in the
sorted copy of its group. -/
def detectRepeatablePatterns (ps : List RMatch) : List RMatch :=
  let eps := ps.enum
  eps.map (fun ip =>
    let grp := eps.filter (fun jq => jq.2.patternId = ip.2.patternId)
    if grp.length ≤ 1 then ip.2
    else
      let sorted := List.insertionSort rmatchLe grp
      { ip.2 with
          repeatIndex := idxOf ip sorted,
          repeatTotal := some grp.length })

/-! ## Batch replacement (`src/lib/config.jsx`, `BatchReplacer.runFromConfig`)

The replacement loop walks an open Illustrator document.  The document is
modelled as a list of layers, each layer a list of page items; a group's
children are its page items.  A layer behaves exactly like a group for the
resolution code (its `typename` is neither `TextFrame` nor
`PlacedItem`/`RasterItem`, and it exposes `pageItems`), so `findByPath`
returns a resolved layer as a `group` node. -/

mutual

inductive AItem where
  | textFrame (contents : String)
  | placed (nm : String)
  | raster (nm : String)
  | group (children : AItems)

/-- The page-item lists of the document tree.  `AItems` is a clone of
`List AItem`; spelling the list type out as part of one mutual inductive
block (instead of nesting `List AItem` inside `AItem`) lets the recursive
searches below be compiled by structural recursion, so that they evaluate
on concrete documents by `rfl`. -/
inductive AItems where
  | nil
  | cons (head : AItem) (tail : AItems)

end

/-- Builds an `AItems` page-item list from a list literal. -/
def aitemsOf : List AItem → AItems
  | [] => AItems.nil
  | a :: l => AItems.cons a (aitemsOf l)

/-- `container.pageItems[idx]` under the in-range test `idx <
container.pageItems.length`: the item at index `idx`, if any. -/
def aitemsGet : AItems → Nat → Option AItem
  | AItems.nil, _ => none
  | AItems.cons a _, 0 => some a
  | AItems.cons _ rest, n + 1 => aitemsGet rest n

/-- The content key used by `findTextByContent`: strip CR/LF, truncate to 30
characters. -/
def cleanContent (s : String) : String :=
  ⟨(s.data.filter (fun c => c ≠ '\r' && c ≠ '\n')).take 30⟩

mutual

/-- `findTextByContent(container, target)`: depth-first over the item list in
document order; a text frame whose cleaned contents equal the cleaned target
is returned; containers are searched recursively (they never match
themselves).  The per-item step of the loop body is split off as
`findInItem` (text frame: compare; container: recurse; other leaf: no
match), so that the pair is structurally recursive over the mutual
`AItem`/`AItems` block. -/
def findInItem : AItem → String → Option AItem
  | AItem.textFrame c, t =>
    if cleanContent c = cleanContent t then some (AItem.textFrame c)
    else none
  | AItem.group ch, t => findTextByContent ch t
  | _, _ => none

def findTextByContent : AItems → String → Option AItem
  | AItems.nil, _ => none
  | AItems.cons a rest, t =>
    match findInItem a t with
    | some r => some r
    | none => findTextByContent rest t

end

/-- `parseInt(part, 10)` on the digit-string path components the extractor
emits: the value of a nonempty leading digit run, else JS `NaN` (which makes
every later index test false, observably `none`). -/
def parseIntPrefix (s : String) : Option Nat :=
  let ds := s.data.takeWhile Char.isDigit
  if ds.isEmpty then none
  else some (ds.foldl (fun n c => 10 * n + (c.toNat - 48)) 0)

/-- The child-index walk of `findByPath` below the layer: each path
component indexes `pageItems` of the current container
(`idx < pageItems.length` guards the access, observably `aitemsGet`). -/
def walkPath : AItem → List String → Option AItem
  | cur, [] => some cur
  | cur, s :: rest =>
    match parseIntPrefix s with
    | none => none
    | some idx =>
      match cur with
      | AItem.group ch =>
        match aitemsGet ch idx with
        | some nxt => walkPath nxt rest
        | none => none
      | _ => none

/-- `str.split(sep)` for a single-character separator, on character lists. -/
def splitCharsOn (sep : Char) : List Char → List (List Char)
  | [] => [[]]
  | c :: rest =>
    let r := splitCharsOn sep rest
    if c = sep then [] :: r
    else
      match r with
      | [] => [[c]]
      | g :: gs => (c :: g) :: gs

/-- `pathStr.split("/")`. -/
def jsSplitSlash (s : String) : List String :=
  (splitCharsOn '/' s.data).map (fun cs => ⟨cs⟩)

/-- `findByPath(pathStr)`: split on `/`, index into the layer list, then
walk `pageItems` indices.  A resolved layer is returned as a `group` of its
items. -/
def findByPath (doc : List AItems) (pathStr : String) : Option AItem :=
  if pathStr = "" then none
  else
    match jsSplitSlash pathStr with
    | [] => none
    | p0 :: rest =>
      match parseIntPrefix p0 with
      | none => none
      | some li =>
        if h : li < doc.length then
          walkPath (AItem.group (doc.get ⟨li, h⟩)) rest
        else none

/-- One entry of the `replacements` array read by the loop. -/
structure Replacement where
  varKey : String
  currentValue : Option String
  elementPath : Option String
  newValue : Option String
  value : Option String
deriving DecidableEq

/-- `rep.newValue || rep.value || ""` (empty strings are falsy). -/
def newValueOf (rep : Replacement) : String :=
  if strTruthy rep.newValue then rep.newValue.getD ""
  else if strTruthy rep.value then rep.value.getD ""
  else ""

/-- Stage 1: `for` over layers while `!item`, content search inside each. -/
def contentStage (doc : List AItems) (target : String) : Option AItem :=
  match doc with
  | [] => none
  | layer :: rest =>
    match findTextByContent layer target with
    | some it => some it
    | none => contentStage rest target

/-- The children an item exposes to a recursive content search
(`container.pageItems`); leaf items expose none. -/
def childrenOf : AItem → AItems
  | AItem.group ch => ch
  | _ => AItems.nil

/-- Whether an item is a `TextFrame`. -/
def isTextFrame : AItem → Bool
  | AItem.textFrame _ => true
  | _ => false

/-- The two-stage target resolution of the `runFromConfig` replacement loop:
content match across layers first (only when `currentValue` is truthy), then
path fallback, with a content search restricted to the resolved subtree when
the path resolves to a non-text container and `currentValue` is truthy. -/
def resolveRep (doc : List AItems) (rep : Replacement) : Option AItem :=
  let stage1 :=
    if strTruthy rep.currentValue then
      contentStage doc (rep.currentValue.getD "")
    else none
  match stage1 with
  | some it => some it
  | none =>
    if strTruthy rep.elementPath then
      match findByPath doc (rep.elementPath.getD "") with
      | some it =>
        if !isTextFrame it && strTruthy rep.currentValue then
          findTextByContent (childrenOf it) (rep.currentValue.getD "")
        else some it
      | none => none
    else none

/-- An observable effect of the loop body: the text or image replacement it
performs on the resolved item.  A resolved item of any other kind, or a
failed resolution, performs nothing — the loop records no success or
failure entry anywhere (its only other effect is a debug log line). -/
inductive RAction where
  | replaceText (oldContents newValue : String)
  | replaceImage (itemName newValue : String)
deriving DecidableEq

/-- The effects of the loop body for one replacement entry. -/
def actionsFor (doc : List AItems) (rep : Replacement) : List RAction :=
  match resolveRep doc rep with
  | some (AItem.textFrame c) => [RAction.replaceText c (newValueOf rep)]
  | some (AItem.placed n) => [RAction.replaceImage n (newValueOf rep)]
  | some (AItem.raster n) => [RAction.replaceImage n (newValueOf rep)]
  | some (AItem.group _) => []
  | none => []

/-- All effects of the `runFromConfig` replacement loop, in order. -/
def runReplacements (doc : List AItems) (reps : List Replacement) :
    List RAction :=
  reps.flatMap (actionsFor doc)

/-- Modelled from the spec: the per-field mapping plan §4.7 and Scenario E
describe for this loop — a `success` record `{field, value}` when the
two-stage resolution finds a target, else a `failed` record
`{field, error: "not found"}`.  No code in `runFromConfig` builds such
records; this definition exists to state the divergence. -/
def planRowSpec (doc : List AItems) (reps : List Replacement) :
    List (String × String) × List (String × String) :=
  reps.foldr
    (fun rep acc =>
      match resolveRep doc rep with
      | some _ => ((rep.varKey, newValueOf rep) :: acc.1, acc.2)
      | none => (acc.1, (rep.varKey, "not found") :: acc.2))
    ([], [])

/-! ## Helper lemmas -/

theorem mkRat_ten : mkRat 10 1 = (10 : Rat) := by
  rw [Rat.mkRat_eq_div]
  norm_num

theorem mkRat_twenty : mkRat 20 1 = (20 : Rat) := by
  rw [Rat.mkRat_eq_div]
  norm_num

theorem fullyOutside_iff (w h : Rat) (b : JSBounds) :
    fullyOutside w h b = true ↔
      (b.right < -10 ∨ w + 10 < b.left ∨ b.bottom < -10 ∨ h + 10 < b.top) := by
  unfold fullyOutside
  simp [ratAdd_eq, mkRat_ten, Bool.or_eq_true, decide_eq_true_eq, or_assoc]

theorem crossesBand_iff (w h : Rat) (b : JSBounds) :
    crossesBand w h b = true ↔
      (b.left < -10 ∨ w + 10 < b.right ∨ b.top < -10 ∨ h + 10 < b.bottom) := by
  unfold crossesBand
  simp [ratAdd_eq, mkRat_ten, Bool.or_eq_true, decide_eq_true_eq, or_assoc]

theorem checkBoundsLoop_cons_none {e : BElem} (w h : Rat) (rest : List BElem)
    (hb : e.bounds = none) :
    checkBoundsLoop w h (e :: rest) = checkBoundsLoop w h rest := by
  simp [checkBoundsLoop, hb]

theorem checkBoundsLoop_cons_out {e : BElem} {b : JSBounds} (w h : Rat)
    (rest : List BElem) (hb : e.bounds = some b)
    (h1 : fullyOutside w h b = true) :
    checkBoundsLoop w h (e :: rest) =
      (⟨e.id, e.etype, b, "完全在画板外"⟩ :: (checkBoundsLoop w h rest).1,
        (checkBoundsLoop w h rest).2.1, (checkBoundsLoop w h rest).2.2) := by
  simp [checkBoundsLoop, hb, h1]

theorem checkBoundsLoop_cons_pv {e : BElem} {b : JSBounds} (w h : Rat)
    (rest : List BElem) (hb : e.bounds = some b)
    (h1 : fullyOutside w h b = false) (h2 : crossesBand w h b = true) :
    checkBoundsLoop w h (e :: rest) =
      ((checkBoundsLoop w h rest).1,
        ⟨e.id, e.etype, b⟩ :: (checkBoundsLoop w h rest).2.1,
        (checkBoundsLoop w h rest).2.2) := by
  simp [checkBoundsLoop, hb, h1, h2]

theorem checkBoundsLoop_cons_full {e : BElem} {b : JSBounds} (w h : Rat)
    (rest : List BElem) (hb : e.bounds = some b)
    (h1 : fullyOutside w h b = false) (h2 : crossesBand w h b = false) :
    checkBoundsLoop w h (e :: rest) =
      ((checkBoundsLoop w h rest).1, (checkBoundsLoop w h rest).2.1,
        (checkBoundsLoop w h rest).2.2 + 1) := by
  simp [checkBoundsLoop, hb, h1, h2]

theorem mem_out_checkBoundsLoop (w h : Rat) {es : List BElem} {e : BElem}
    {b : JSBounds} (he : e ∈ es) (hb : e.bounds = some b)
    (hout : fullyOutside w h b = true) :
    (⟨e.id, e.etype, b, "完全在画板外"⟩ : OOBEntry) ∈ (checkBoundsLoop w h es).1 := by
  induction es with
  | nil => cases he
  | cons e' rest ih =>
    rcases List.mem_cons.mp he with rfl | hmem
    · rw [checkBoundsLoop_cons_out w h rest hb hout]
      exact List.mem_cons_self _ _
    · have hsub := ih hmem
      rcases hb' : e'.bounds with _ | b'
      · rwa [checkBoundsLoop_cons_none w h rest hb']
      · by_cases h1 : fullyOutside w h b'
        · rw [checkBoundsLoop_cons_out w h rest hb' h1]
          exact List.mem_cons_of_mem _ hsub
        · by_cases h2 : crossesBand w h b'
          · rwa [checkBoundsLoop_cons_pv w h rest hb'
              (Bool.not_eq_true _ ▸ h1) h2]
          · rwa [checkBoundsLoop_cons_full w h rest hb'
              (Bool.not_eq_true _ ▸ h1) (Bool.not_eq_true _ ▸ h2)]

theorem mem_pv_checkBoundsLoop (w h : Rat) {es : List BElem} {e : BElem}
    {b : JSBounds} (he : e ∈ es) (hb : e.bounds = some b)
    (hout : fullyOutside w h b = false) (hcross : crossesBand w h b = true) :
    (⟨e.id, e.etype, b⟩ : PVEntry) ∈ (checkBoundsLoop w h es).2.1 := by
  induction es with
  | nil => cases he
  | cons e' rest ih =>
    rcases List.mem_cons.mp he with rfl | hmem
    · rw [checkBoundsLoop_cons_pv w h rest hb hout hcross]
      exact List.mem_cons_self _ _
    · have hsub := ih hmem
      rcases hb' : e'.bounds with _ | b'
      · rwa [checkBoundsLoop_cons_none w h rest hb']
      · by_cases h1 : fullyOutside w h b'
        · rwa [checkBoundsLoop_cons_out w h rest hb' h1]
        · by_cases h2 : crossesBand w h b'
          · rw [checkBoundsLoop_cons_pv w h rest hb'
              (Bool.not_eq_true _ ▸ h1) h2]
            exact List.mem_cons_of_mem _ hsub
          · rwa [checkBoundsLoop_cons_full w h rest hb'
              (Bool.not_eq_true _ ▸ h1) (Bool.not_eq_true _ ▸ h2)]

/-- The predicate under which an element increments `fullyVisible`. -/
def countsFully (w h : Rat) (e : BElem) : Bool :=
  match e.bounds with
  | some b => !fullyOutside w h b && !crossesBand w h b
  | none => false

theorem fullyVisible_checkBoundsLoop (w h : Rat) (es : List BElem) :
    (checkBoundsLoop w h es).2.2 = (es.filter (countsFully w h)).length := by
  induction es with
  | nil => rfl
  | cons e rest ih =>
    rw [List.filter_cons]
    rcases hb : e.bounds with _ | b
    · rw [checkBoundsLoop_cons_none w h rest hb,
        show countsFully w h e = false by rw [countsFully, hb]]
      simpa using ih
    · by_cases h1 : fullyOutside w h b
      · rw [checkBoundsLoop_cons_out w h rest hb h1,
          show countsFully w h e = false by rw [countsFully, hb]; simp [h1]]
        simpa using ih
      · by_cases h2 : crossesBand w h b
        · rw [checkBoundsLoop_cons_pv w h rest hb
            (Bool.not_eq_true _ ▸ h1) h2,
            show countsFully w h e = false by rw [countsFully, hb]; simp [h2]]
          simpa using ih
        · rw [checkBoundsLoop_cons_full w h rest hb
            (Bool.not_eq_true _ ▸ h1) (Bool.not_eq_true _ ▸ h2),
            show countsFully w h e = true by
              rw [countsFully, hb]
              simp [Bool.not_eq_true _ ▸ h1, Bool.not_eq_true _ ▸ h2]]
        
          simpa using ih

theorem checkBoundsLoop_sum (w h : Rat) (es : List BElem) :
    (checkBoundsLoop w h es).1.length + (checkBoundsLoop w h es).2.1.length +
      (checkBoundsLoop w h es).2.2 =
      (es.filter (fun e => e.bounds.isSome)).length := by
  induction es with
  | nil => rfl
  | cons e rest ih =>
    rw [List.filter_cons]
    rcases hb : e.bounds with _ | b
    · rw [checkBoundsLoop_cons_none w h rest hb]
      simpa using ih
    · simp only [Option.isSome_some, if_true, List.length_cons]
      by_cases h1 : fullyOutside w h b
      · rw [checkBoundsLoop_cons_out w h rest hb h1]
        dsimp only
        simp only [List.length_cons]
        omega
      · by_cases h2 : crossesBand w h b
        · rw [checkBoundsLoop_cons_pv w h rest hb
            (Bool.not_eq_true _ ▸ h1) h2]
          dsimp only
          simp only [List.length_cons]
          omega
        · rw [checkBoundsLoop_cons_full w h rest hb
            (Bool.not_eq_true _ ▸ h1) (Bool.not_eq_true _ ▸ h2)]
          dsimp only
          omega

theorem mkRat_hundred : mkRat 100 1 = (100 : Rat) := by
  rw [Rat.mkRat_eq_div]
  norm_num

/-! ## Claim theorems -/

/-- Claim C1: the spec requires every id occurring more than once in the
flattened list to be flagged in `idCheck.duplicates`, with `unique` false,
in particular when the first occurrence is at index 0.  The code evaluates
`if (ids[id])` on the stored index, so a first occurrence stored at index 0
is falsy: on `["a", "a"]` the duplicate is silently overwritten and the
checker reports the list as unique. -/
theorem claim_C1_duplicate_at_index_zero :
    checkIdUniqueness ["a", "a"] = ⟨true, [], 1⟩ := by decide

theorem checkIdUniqueness_flags_later_duplicates :
    checkIdUniqueness ["x", "a", "a"] = ⟨false, [⟨"a", 1, 2⟩], 2⟩ := by decide

/-- Claim C7: for every element carrying bounds, checked against a `w × h`
artboard with tolerance 10: bounds entirely outside `[-10, w+10]` or
`[-10, h+10]` on either axis put the element in `outOfBounds`; otherwise an
edge crossing the tolerance band puts it in `partiallyVisible`; an element
entirely within `[0, w] × [0, h]` satisfies the `fullyVisible` predicate, and
`fullyVisible` counts exactly the elements satisfying it.  The check is a
total function returning counts and lists. -/
theorem claim_C7_checkBounds_classification (es : List BElem) (w h : Rat) :
    (∀ e ∈ es, ∀ b : JSBounds, e.bounds = some b →
      ((b.right < -10 ∨ w + 10 < b.left ∨ b.bottom < -10 ∨ h + 10 < b.top) →
        (⟨e.id, e.etype, b, "完全在画板外"⟩ : OOBEntry) ∈
          (checkBounds es w h).outOfBounds) ∧
      ((¬(b.right < -10 ∨ w + 10 < b.left ∨ b.bottom < -10 ∨ h + 10 < b.top) ∧
          (b.left < -10 ∨ w + 10 < b.right ∨ b.top < -10 ∨ h + 10 < b.bottom)) →
        (⟨e.id, e.etype, b⟩ : PVEntry) ∈
          (checkBounds es w h).partiallyVisible) ∧
      ((0 ≤ b.left ∧ b.left ≤ b.right ∧ b.right ≤ w ∧
          0 ≤ b.top ∧ b.top ≤ b.bottom ∧ b.bottom ≤ h) →
        countsFully w h e = true)) ∧
    (checkBounds es w h).fullyVisible = (es.filter (countsFully w h)).length := by
  constructor
  · intro e he b hb
    refine ⟨fun hout => ?_, fun hpv => ?_, fun hin => ?_⟩
    · exact mem_out_checkBoundsLoop w h he hb ((fullyOutside_iff w h b).mpr hout)
    · have h1 : fullyOutside w h b = false := by
        rcases hfo : fullyOutside w h b with _ | _
        · rfl
        · exact absurd ((fullyOutside_iff w h b).mp hfo) hpv.1
      exact mem_pv_checkBoundsLoop w h he hb h1 ((crossesBand_iff w h b).mpr hpv.2)
    · obtain ⟨h1, h2, h3, h4, h5, h6⟩ := hin
      have hfo : fullyOutside w h b = false := by
        rcases hfo : fullyOutside w h b with _ | _
        · rfl
        · rcases (fullyOutside_iff w h b).mp hfo with hc | hc | hc | hc <;>
            linarith
      have hcb : crossesBand w h b = false := by
        rcases hcb : crossesBand w h b with _ | _
        · rfl
        · rcases (crossesBand_iff w h b).mp hcb with hc | hc | hc | hc <;>
            linarith
      rw [countsFully, hb]
      simp only [hfo, hcb]
      rfl
  · exact fullyVisible_checkBoundsLoop w h es

/-- The elements of the C7 witness: one fully outside, one crossing the
band, one entirely within a `100 × 100` artboard. -/
def bElemOut : BElem := ⟨"o1", "path", some ⟨200, 200, 300, 300⟩⟩

def bElemCross : BElem := ⟨"c1", "path", some ⟨-20, 10, 50, 50⟩⟩

def bElemIn : BElem := ⟨"i1", "text", some ⟨10, 10, 50, 50⟩⟩

def bElemsW : List BElem := [bElemOut, bElemCross, bElemIn]

theorem claim_C7_witness :
    (⟨"o1", "path", ⟨200, 200, 300, 300⟩, "完全在画板外"⟩ : OOBEntry) ∈
      (checkBounds bElemsW (mkRat 100 1) (mkRat 100 1)).outOfBounds ∧
    (⟨"c1", "path", ⟨-20, 10, 50, 50⟩⟩ : PVEntry) ∈
      (checkBounds bElemsW (mkRat 100 1) (mkRat 100 1)).partiallyVisible ∧
    countsFully (mkRat 100 1) (mkRat 100 1) bElemIn = true ∧
    (checkBounds bElemsW (mkRat 100 1) (mkRat 100 1)).fullyVisible = 1 := by
  have H := claim_C7_checkBounds_classification bElemsW (mkRat 100 1) (mkRat 100 1)
  refine ⟨?_, ?_, ?_, ?_⟩
  · exact (H.1 bElemOut (by decide) ⟨200, 200, 300, 300⟩ rfl).1
      (by rw [mkRat_hundred]; norm_num)
  · exact (H.1 bElemCross (by decide) ⟨-20, 10, 50, 50⟩ rfl).2.1
      (by rw [mkRat_hundred]; norm_num)
  · exact (H.1 bElemIn (by decide) ⟨10, 10, 50, 50⟩ rfl).2.2
      (by rw [mkRat_hundred]; norm_num)
  · rw [H.2]
    decide

/-- Claim C10: the bounds check silently skips every element without a
`bounds` field: the three categories partition exactly the elements carrying
bounds, their combined size can be smaller than the number of elements
checked, and prepending a bounds-less element leaves the result unchanged. -/
theorem claim_C10_checkBounds_skips_boundless (es : List BElem) (w h : Rat) :
    ((checkBounds es w h).outOfBounds.length +
      (checkBounds es w h).partiallyVisible.length +
      (checkBounds es w h).fullyVisible =
        (es.filter (fun e => e.bounds.isSome)).length) ∧
    ((es.filter (fun e => e.bounds.isSome)).length ≤ es.length) ∧
    (∀ e : BElem, e.bounds = none →
      checkBounds (e :: es) w h = checkBounds es w h) := by
  refine ⟨checkBoundsLoop_sum w h es, List.length_filter_le _ _, ?_⟩
  intro e hb
  unfold checkBounds
  rw [checkBoundsLoop_cons_none w h es hb]

theorem claim_C10_witness :
    (⟨"nb", "group", none⟩ : BElem).bounds = none ∧
    checkBounds [⟨"nb", "group", none⟩] (mkRat 100 1) (mkRat 100 1) =
      checkBounds [] (mkRat 100 1) (mkRat 100 1) ∧
    (checkBounds [⟨"nb", "group", none⟩] (mkRat 100 1) (mkRat 100 1)).outOfBounds.length +
      (checkBounds [⟨"nb", "group", none⟩] (mkRat 100 1) (mkRat 100 1)).partiallyVisible.length +
      (checkBounds [⟨"nb", "group", none⟩] (mkRat 100 1) (mkRat 100 1)).fullyVisible = 0 :=
  ⟨rfl,
    (claim_C10_checkBounds_skips_boundless [] (mkRat 100 1) (mkRat 100 1)).2.2 _ rfl,
    by
      have := (claim_C10_checkBounds_skips_boundless
        [⟨"nb", "group", none⟩] (mkRat 100 1) (mkRat 100 1)).1
      rw [this]
      decide⟩

theorem assocLookup_cons {α : Type} (a : String) (b : α)
    (rest : List (String × α)) (k : String) :
    assocLookup ((a, b) :: rest) k =
      if a = k then some b else assocLookup rest k := by
  by_cases h : a = k
  · rw [if_pos h]
    unfold assocLookup
    rw [List.find?_cons_of_pos _ (by simp [h])]
    rfl
  · rw [if_neg h]
    unfold assocLookup
    rw [List.find?_cons_of_neg _ (by simp [h])]

theorem assocSet_cons {α : Type} (a : String) (b : α)
    (rest : List (String × α)) (k : String) (v : α) :
    assocSet ((a, b) :: rest) k v =
      if a = k then (a, v) :: rest else (a, b) :: assocSet rest k v := rfl

theorem assocLookup_assocSet_self {α : Type} (m : List (String × α))
    (k : String) (v : α) : assocLookup (assocSet m k v) k = some v := by
  induction m with
  | nil =>
    show assocLookup [(k, v)] k = some v
    rw [assocLookup_cons, if_pos rfl]
  | cons p rest ih =>
    obtain ⟨a, b⟩ := p
    rw [assocSet_cons]
    by_cases h : a = k
    · rw [if_pos h, assocLookup_cons, if_pos h]
    · rw [if_neg h, assocLookup_cons, if_neg h]
      exact ih

theorem assocLookup_assocSet_ne {α : Type} (m : List (String × α))
    {k k' : String} (v : α) (hne : k' ≠ k) :
    assocLookup (assocSet m k v) k' = assocLookup m k' := by
  induction m with
  | nil =>
    show assocLookup [(k, v)] k' = assocLookup [] k'
    rw [assocLookup_cons, if_neg (fun h => hne h.symm)]
  | cons p rest ih =>
    obtain ⟨a, b⟩ := p
    rw [assocSet_cons]
    by_cases h : a = k
    · rw [if_pos h, assocLookup_cons, assocLookup_cons]
      rcases eq_or_ne a k' with h' | h'
      · exact absurd (h' ▸ h.symm ▸ rfl : k = k') (Ne.symm hne)
      · rw [if_neg h', if_neg h']
    · rw [if_neg h, assocLookup_cons, assocLookup_cons]
      rcases eq_or_ne a k' with h' | h'
      · rw [if_pos h', if_pos h']
      · rw [if_neg h', if_neg h']
        exact ih

theorem generateId_standalone (key : String) (hk : key ≠ "")
    (st : NamerState) :
    generateId none (some key) none st =
      (key ++ "_" ++ jsNatRepr ((assocLookup st.counters key).getD 0),
        ⟨assocSet st.counters key
          ((assocLookup st.counters key).getD 0 + 1)⟩) := by
  unfold generateId strTruthy
  simp [hk]

theorem allocStandalone_from (key : String) (hk : key ≠ "") (k : Nat) :
    ∀ st : NamerState,
      (allocStandalone key k st).1 =
        (List.range' ((assocLookup st.counters key).getD 0) k).map
          (fun n => key ++ "_" ++ jsNatRepr n) := by
  induction k with
  | zero => intro st; rfl
  | succ k ih =>
    intro st
    rw [allocStandalone, generateId_standalone key hk st]
    dsimp only
    rw [ih ⟨assocSet st.counters key
      ((assocLookup st.counters key).getD 0 + 1)⟩]
    rw [show (assocLookup (assocSet st.counters key
        ((assocLookup st.counters key).getD 0 + 1)) key).getD 0 =
        (assocLookup st.counters key).getD 0 + 1 from by
      rw [assocLookup_assocSet_self]
      rfl]
    rw [List.range'_succ, List.map_cons]

/-- Claim C8: within one detection pass, successive standalone allocations
for one type-key emit exactly `key_0, key_1, …, key_(k-1)` — the per-key
counter starts at 0 and increments on every allocation — and the emitted
keys are pairwise distinct. -/
theorem claim_C8_namer_standalone_keys_distinct (key : String)
    (hk : key ≠ "") (k : Nat) :
    (allocStandalone key k namerReset).1 =
      (List.range k).map (fun n => key ++ "_" ++ jsNatRepr n) ∧
    (allocStandalone key k namerReset).1.Nodup := by
  have hbase : (allocStandalone key k namerReset).1 =
      (List.range k).map (fun n => key ++ "_" ++ jsNatRepr n) := by
    rw [allocStandalone_from key hk k namerReset]
    rw [show (assocLookup (namerReset).counters key).getD 0 = 0 from rfl]
    rw [List.range_eq_range']
  refine ⟨hbase, ?_⟩
  rw [hbase]
  refine List.Nodup.map ?_ (List.nodup_range k)
  intro a b hab
  have hdata := congrArg String.data hab
  simp only [String.data_append, List.append_assoc] at hdata
  have h1 := List.append_cancel_left hdata
  have hrep : (jsNatRepr a).data = (jsNatRepr b).data :=
    List.append_cancel_left h1
  exact jsNatRepr_inj (String.ext hrep)

theorem claim_C8_witness :
    ("text" : String) ≠ "" ∧
    ((allocStandalone "text" 3 namerReset).1 =
      (List.range 3).map (fun n => "text" ++ "_" ++ jsNatRepr n) ∧
     (allocStandalone "text" 3 namerReset).1.Nodup) ∧
    (allocStandalone "text" 3 namerReset).1 = ["text_0", "text_1", "text_2"] :=
  ⟨by decide, claim_C8_namer_standalone_keys_distinct "text" (by decide) 3,
    by decide⟩

theorem djb2Step_eq (h c : Nat) :
    djb2Step (h : Int) c = ((djb2SpecStep h c : Nat) : Int) := by
  unfold djb2Step djb2SpecStep jsToInt32
  push_cast
  split_ifs <;> omega

theorem foldl_djb2 (cs : List Char) : ∀ h : Nat,
    cs.foldl (fun a c => djb2Step a c.toNat) (h : Int) =
      ((cs.foldl (fun a c => djb2SpecStep a c.toNat) h : Nat) : Int) := by
  induction cs with
  | nil => intro h; rfl
  | cons c rest ih =>
    intro h
    rw [List.foldl_cons, List.foldl_cons, djb2Step_eq, ih]

/-- Claim C6: content-hash identity generation is a pure function of the
element's kind, rounded position, rounded size, layer index, structural path
and (for text) the first 20 characters of content — two applications on
elements agreeing on those projections yield the identical id — and the id
equals `lowercase(kind) ++ "_" ++ hex(DJB2(key))` with DJB2 the seed-5381
multiply-by-33-plus-add hash masked to 31 bits. -/
theorem claim_C6_stable_id (item : HashItem) (ctx : HashCtx) :
    generateStableId item ctx =
      item.typename.toLower ++ "_" ++ jsHexRepr (djb2Spec (hashKey item ctx)) ∧
    (∀ item' : HashItem, ∀ ctx' : HashCtx,
      item.typename = item'.typename →
      jsRound item.posX = jsRound item'.posX →
      jsRound item.posY = jsRound item'.posY →
      jsRound item.width = jsRound item'.width →
      jsRound item.height = jsRound item'.height →
      ctx = ctx' →
      contentKey item = contentKey item' →
      generateStableId item ctx = generateStableId item' ctx') := by
  have hhash : ∀ it : HashItem, ∀ cx : HashCtx,
      hashContent it cx = jsHexRepr (djb2Spec (hashKey it cx)) := by
    intro it cx
    unfold hashContent djb2Spec
    rw [show (5381 : Int) = ((5381 : Nat) : Int) from rfl, foldl_djb2]
    rw [Int.toNat_natCast]
  constructor
  · unfold generateStableId
    rw [hhash]
  · intro item' ctx' h1 h2 h3 h4 h5 h6 h7
    have hkey : hashKey item ctx = hashKey item' ctx' := by
      unfold hashKey
      rw [h1, h2, h3, h4, h5, h6, h7]
    unfold generateStableId
    rw [hhash, hhash, h1, hkey]

/-- C6 witness data: a text frame at fractional coordinates, and a second
one differing only in respects outside the hash key (position within the
same rounding cell, text beyond the 20th character). -/
def itemC6a : HashItem :=
  ⟨"TextFrame", mkRat 104 10, mkRat 206 10, mkRat 100 1, mkRat 50 1,
    some "aaaaaaaaaaaaaaaaaaaaXX"⟩

def itemC6b : HashItem :=
  ⟨"TextFrame", mkRat 102 10, mkRat 206 10, mkRat 100 1, mkRat 50 1,
    some "aaaaaaaaaaaaaaaaaaaaYY"⟩

def ctxC6 : HashCtx := ⟨0, "0/1"⟩

theorem claim_C6_witness :
    generateStableId itemC6a ctxC6 =
      itemC6a.typename.toLower ++ "_" ++
        jsHexRepr (djb2Spec (hashKey itemC6a ctxC6)) ∧
    generateStableId itemC6a ctxC6 = generateStableId itemC6b ctxC6 :=
  ⟨(claim_C6_stable_id itemC6a ctxC6).1,
    (claim_C6_stable_id itemC6a ctxC6).2 itemC6b ctxC6 rfl (by decide)
      (by decide) (by decide) (by decide) rfl (by decide)⟩

theorem mem_tagIf {x t : Tag} {b : Bool} : x ∈ tagIf b t ↔ b = true ∧ x = t := by
  unfold tagIf
  split <;> simp_all

theorem tagIf_false (t : Tag) : tagIf false t = [] := rfl

theorem forall_mem_tagIf_append {P : Tag → Prop} {b : Bool} {t₀ : Tag}
    {rest : List Tag} (h₀ : P t₀) (hr : ∀ t ∈ rest, P t) :
    ∀ t ∈ tagIf b t₀ ++ rest, P t := by
  intro t ht
  rcases List.mem_append.mp ht with h | h
  · rcases mem_tagIf.mp h with ⟨-, h⟩
    rw [h]
    exact h₀
  · exact hr t h

/-- Claim C4 (amended): `detectText` tags a string as a Chinese personal
name with confidence 0.85 exactly when its whitespace-stripped form consists
of 2 to 4 CJK characters (codes in `[0x4e00, 0x9fa5]`) — there is no
exclusion keyword list in this detector — and in particular the text
`"张三"` receives exactly the name tag, with `primaryType` the person-name
type and confidence 0.85. -/
theorem claim_C4_chinese_name_tag (content : String) :
    (((⟨"name", VT_PERSON_NAME, mkRat 85 100⟩ : Tag) ∈ (detectText content).tags)
      ↔ isChineseName (jsTrim content) = true) ∧
    (detectText "张三").tags = [⟨"name", VT_PERSON_NAME, mkRat 85 100⟩] ∧
    (detectText "张三").primaryType = some VT_PERSON_NAME ∧
    (detectText "张三").maxConfidence = mkRat 85 100 := by
  refine ⟨?_, by decide, by decide, by decide⟩
  unfold detectText
  by_cases hc : content = ""
  · rw [if_pos hc, hc]
    simp [show jsTrim "" = "" from rfl, show isChineseName "" = false from rfl]
  · rw [if_neg hc]
    dsimp only
    rw [List.mem_insertionSort]
    unfold textTags rawTags
    simp [mem_tagIf, Tag.mk.injEq, VarType.mk.injEq]

/-- The claim's exclusion-list behavior is absent: the excluded keyword
`"团队"` (two CJK characters) still receives the name tag with confidence
0.85. -/
theorem claim_C4_counterexample :
    isChineseName "团队" = true ∧
    (⟨"name", VT_PERSON_NAME, mkRat 85 100⟩ : Tag) ∈ (detectText "团队").tags := by
  decide

/-- Claim C9 (amended): text classification of an empty or whitespace-only
string yields no tags and a null primary type, and the generic-text fallback
(type key `"text"`) requires a trimmed length of at least 2, so it is never
applied to a single-character string; such a string can still be tagged by a
keyword rule (see the counterexample). -/
theorem claim_C9_short_text (content : String)
    (h : (jsTrim content).length ≤ 1) :
    (∀ t ∈ (detectText content).tags, t.ttype ≠ "text") ∧
    (jsTrim content = "" → detectText content = ⟨[], none, [], 0⟩) := by
  by_cases hc : content = ""
  · subst hc
    exact ⟨by intro t ht; simp [detectText] at ht, fun _ => rfl⟩
  · constructor
    · have hraw : ∀ t ∈ rawTags (jsTrim content), t.ttype ≠ "text" := by
        unfold rawTags
        simp only [List.append_assoc]
        refine forall_mem_tagIf_append (by decide) ?_
        refine forall_mem_tagIf_append (by decide) ?_
        refine forall_mem_tagIf_append (by decide) ?_
        refine forall_mem_tagIf_append (by decide) ?_
        refine forall_mem_tagIf_append (by decide) ?_
        refine forall_mem_tagIf_append (by decide) ?_
        refine forall_mem_tagIf_append (by decide) ?_
        refine forall_mem_tagIf_append (by decide) ?_
        refine forall_mem_tagIf_append (by decide) ?_
        refine forall_mem_tagIf_append (by decide) ?_
        refine forall_mem_tagIf_append (by decide) ?_
        intro t ht
        rcases mem_tagIf.mp ht with ⟨-, h2⟩
        rw [h2]
        decide
      intro t ht
      unfold detectText at ht
      rw [if_neg hc] at ht
      dsimp only at ht
      rw [List.mem_insertionSort] at ht
      unfold textTags at ht
      rw [show (decide (2 ≤ (jsTrim content).length)) = false from by
        simp only [decide_eq_false_iff_not]
        omega] at ht
      simp only [Bool.and_false, tagIf_false, List.append_nil] at ht
      exact hraw t ht
    · intro h0
      unfold detectText
      rw [if_neg hc, h0]
      decide

/-- The claim's blanket exclusion of single-character strings is false: the
one-character string `"省"` matches the address keyword regex and is tagged
`address` with confidence 0.75 and a non-null primary type. -/
theorem claim_C9_counterexample :
    (jsTrim "省").length = 1 ∧
    (detectText "省").tags = [⟨"address", VT_ADDRESS, mkRat 75 100⟩] ∧
    (detectText "省").primaryType = some VT_ADDRESS := by
  decide

theorem claim_C9_witness :
    (jsTrim "  ").length ≤ 1 ∧
    ((∀ t ∈ (detectText "  ").tags, t.ttype ≠ "text") ∧
      (jsTrim "  " = "" → detectText "  " = ⟨[], none, [], 0⟩)) :=
  ⟨by decide, claim_C9_short_text "  " (by decide)⟩

theorem lookup_foldl_opt {α : Type} (tags : List (String × List α))
    (keys : List String) (r : String) :
    ∀ acc : List (String × Option α),
      assocLookup acc r = some (valFn tags r) →
      assocLookup (keys.foldl
        (fun a o => if (assocLookup tags o).isSome then
          assocSet a o (valFn tags o) else a) acc) r = some (valFn tags r) := by
  induction keys with
  | nil => intro acc h; exact h
  | cons k ks ih =>
    intro acc h
    rw [List.foldl_cons]
    by_cases hset : (assocLookup tags k).isSome
    · rw [if_pos hset]
      rcases eq_or_ne k r with rfl | hne
      · exact ih _ (assocLookup_assocSet_self _ _ _)
      · exact ih _ ((assocLookup_assocSet_ne _ _ (Ne.symm hne)).trans h)
    · rw [if_neg hset]
      exact ih _ h

theorem lookup_foldl_req {α : Type} (tags : List (String × List α))
    (keys : List String) (r : String) :
    ∀ acc : List (String × Option α),
      (r ∈ keys ∨ assocLookup acc r = some (valFn tags r)) →
      assocLookup (keys.foldl
        (fun a k => assocSet a k (valFn tags k)) acc) r =
        some (valFn tags r) := by
  induction keys with
  | nil =>
    intro acc h
    rcases h with h | h
    · cases h
    · exact h
  | cons k ks ih =>
    intro acc h
    rw [List.foldl_cons]
    rcases eq_or_ne k r with rfl | hne
    · exact ih _ (Or.inr (assocLookup_assocSet_self _ _ _))
    · rcases h with h | h
      · rcases List.mem_cons.mp h with rfl | h2
        · exact absurd rfl hne
        · exact ih _ (Or.inl h2)
      · exact ih _ (Or.inr ((assocLookup_assocSet_ne _ _ (Ne.symm hne)).trans h))

theorem buildFields_required {α : Type} (d : PatternDef)
    (tags : List (String × List α)) {r : String} (hr : r ∈ d.required) :
    assocLookup (buildFields d tags) r = some (valFn tags r) := by
  unfold buildFields
  exact lookup_foldl_opt tags d.optional r _
    (lookup_foldl_req tags d.required r [] (Or.inl hr))

theorem matchPatternAux_first {α : Type} (gid : String)
    (tags : List (String × List α)) :
    ∀ ds : List PatternDef, ∀ m : PatMatch α,
      matchPatternAux gid tags ds = some m →
      ∃ pre d post, ds = pre ++ d :: post ∧
        (∀ d' ∈ pre, matchCond d' tags = false) ∧
        matchCond d tags = true ∧
        m = ⟨d.id, d.label, gid, buildFields d tags, d.repeatable, 0⟩ := by
  intro ds
  induction ds with
  | nil => intro m h; cases h
  | cons d ds ih =>
    intro m h
    rw [matchPatternAux] at h
    by_cases hcond : matchCond d tags
    · rw [if_pos hcond] at h
      refine ⟨[], d, ds, rfl, ?_, hcond, ?_⟩
      · intro d' hd'
        cases hd'
      · exact (Option.some_inj.mp h).symm
    · rw [if_neg hcond] at h
      obtain ⟨pre, d', post, hds, hpre, hcond', hm⟩ := ih m h
      refine ⟨d :: pre, d', post, by rw [hds]; rfl, ?_, hcond', hm⟩
      intro d'' hd''
      rcases List.mem_cons.mp hd'' with rfl | h2
      · exact Bool.not_eq_true _ ▸ hcond
      · exact hpre d'' h2

/-- Claim C3: the matcher returns at most one match per container (it is an
`Option`): the first catalog definition for which every required key is
bound to a nonempty record list and the `minFields` guard passes; in the
returned match, every required key is present in `fields`, bound to the
record at index 0 of its list. -/
theorem claim_C3_matchPattern_first_and_required {α : Type} (gid : String)
    (tags : List (String × List α)) (m : PatMatch α)
    (h : matchPattern gid tags = some m) :
    ∃ pre d post, COMPOSITE_PATTERNS = pre ++ d :: post ∧
      (∀ d' ∈ pre, matchCond d' tags = false) ∧
      matchCond d tags = true ∧
      m.patternId = d.id ∧ m.groupId = gid ∧
      ∀ r ∈ d.required, ∃ rec : α, ∃ l : List α,
        assocLookup tags r = some (rec :: l) ∧
        assocLookup m.fields r = some (some rec) := by
  obtain ⟨pre, d, post, hcat, hpre, hcond, hm⟩ :=
    matchPatternAux_first gid tags COMPOSITE_PATTERNS m h
  subst hm
  refine ⟨pre, d, post, hcat, hpre, hcond, rfl, rfl, ?_⟩
  intro r hr
  have hok : requiredOk d tags = true := (Bool.and_eq_true _ _ ▸ hcond).1
  have hpred := List.all_eq_true.mp hok r hr
  rcases hlook : assocLookup tags r with _ | l
  · rw [requiredOk] at hok
    have := List.all_eq_true.mp hok r hr
    rw [hlook] at this
    cases this
  · rcases l with _ | ⟨rec, l'⟩
    · rw [requiredOk] at hok
      have := List.all_eq_true.mp hok r hr
      rw [hlook] at this
      simp at this
    · refine ⟨rec, l', rfl, ?_⟩
      have := buildFields_required d tags hr
      rw [valFn, hlook] at this
      exact this

/-- C3 witness data, Scenario C of the spec: a container whose children are
tagged `avatar`, `name` and `title` (records abbreviated to their element
names). -/
def tagsC3 : List (String × List String) :=
  [("avatar", ["A"]), ("name", ["N"]), ("title", ["T"])]

def matchC3 : PatMatch String :=
  ⟨"guest", "嘉宾卡片", "g1",
    [("avatar", some "A"), ("name", some "N"), ("title", some "T")], true, 0⟩

theorem claim_C3_witness :
    matchPattern "g1" tagsC3 = some matchC3 ∧
    (∃ pre d post, COMPOSITE_PATTERNS = pre ++ d :: post ∧
      (∀ d' ∈ pre, matchCond d' tagsC3 = false) ∧
      matchCond d tagsC3 = true ∧
      matchC3.patternId = d.id ∧ matchC3.groupId = "g1" ∧
      ∀ r ∈ d.required, ∃ rec : String, ∃ l : List String,
        assocLookup tagsC3 r = some (rec :: l) ∧
        assocLookup matchC3.fields r = some (some rec)) :=
  ⟨by decide,
    claim_C3_matchPattern_first_and_required "g1" tagsC3 matchC3 (by decide)⟩

/-- Claim C5 (amended): the two-stage resolution prefers the content match;
when resolution fails the field is silently skipped — the loop performs no
replacement and `runFromConfig` emits no per-field record at all (its only
other effect is a debug-log line) — and a successful text resolution
performs the replacement with the new value.  Rows are processed
independently: the effects of a replacement list decompose entrywise. -/
theorem claim_C5_resolution_effects (doc : List AItems)
    (rep : Replacement) :
    (strTruthy rep.currentValue = true →
      ∀ it : AItem, contentStage doc (rep.currentValue.getD "") = some it →
        resolveRep doc rep = some it) ∧
    (resolveRep doc rep = none → actionsFor doc rep = []) ∧
    (∀ c : String, resolveRep doc rep = some (AItem.textFrame c) →
      actionsFor doc rep = [RAction.replaceText c (newValueOf rep)]) ∧
    (∀ reps : List Replacement,
      runReplacements doc (rep :: reps) =
        actionsFor doc rep ++ runReplacements doc reps) := by
  refine ⟨?_, ?_, ?_, ?_⟩
  · intro htruthy it hstage
    unfold resolveRep
    rw [if_pos htruthy, hstage]
  · intro hnone
    unfold actionsFor
    rw [hnone]
  · intro c hsome
    unfold actionsFor
    rw [hsome]
  · intro reps
    unfold runReplacements
    rw [List.flatMap_cons]

/-- C5 counterexample data, Scenario E's failure case: the document holds no
text whose cleaned content equals the recorded value, and the recorded path
points past the end of the layer. -/
def docC5 : List AItems := [aitemsOf [AItem.textFrame "其他文本"]]

def repC5 : Replacement :=
  ⟨"guest_0.name", some "张三", some "0/5", some "Alice", none⟩

/-- The claim's failure recording does not happen: at an input where both
stages fail, the loop performs nothing and produces no record, while the
spec-modelled planner (`planRowSpec`) requires
`failed = [{field: "guest_0.name", error: "not found"}]`. -/
theorem claim_C5_counterexample :
    resolveRep docC5 repC5 = none ∧
    runReplacements docC5 [repC5] = [] ∧
    planRowSpec docC5 [repC5] = ([], [("guest_0.name", "not found")]) := by
  refine ⟨?_, ?_, ?_⟩ <;> rfl

/-- C5 witness data: a document whose first layer holds the recorded text. -/
def docC5w : List AItems :=
  [aitemsOf [AItem.textFrame "张三", AItem.placed "logo.png"]]

theorem claim_C5_witness :
    resolveRep docC5w repC5 = some (AItem.textFrame "张三") ∧
    actionsFor docC5w repC5 = [RAction.replaceText "张三" "Alice"] ∧
    resolveRep docC5 repC5 = none ∧
    actionsFor docC5 repC5 = [] := by
  have hstage : contentStage docC5w "张三" = some (AItem.textFrame "张三") := by
    rfl
  have hres : resolveRep docC5w repC5 = some (AItem.textFrame "张三") :=
    (claim_C5_resolution_effects docC5w repC5).1 rfl _ hstage
  have hresf : resolveRep docC5 repC5 = none := by rfl
  exact ⟨hres, (claim_C5_resolution_effects docC5w repC5).2.2.1 "张三" hres,
    hresf, (claim_C5_resolution_effects docC5 repC5).2.1 hresf⟩

theorem rmatchCmpVal_neg (a b : RMatch) :
    rmatchCmpVal b a = -rmatchCmpVal a b := by
  unfold rmatchCmpVal
  simp only [ratSub_eq, jsAbs_eq, mkRat_twenty]
  rw [abs_sub_comm b.y a.y]
  split_ifs
  · ring
  · ring

theorem rmatchLe_total : ∀ a b : Nat × RMatch, ¬rmatchLe a b → rmatchLe b a := by
  intro a b h
  unfold rmatchLe at *
  rw [rmatchCmpVal_neg]
  have h2 : 0 < rmatchCmpVal a.2 b.2 := lt_of_not_le h
  linarith

theorem chain'_orderedInsert {β : Type} (r : β → β → Prop) [DecidableRel r]
    (total : ∀ a b, ¬r a b → r b a) (a : β) :
    ∀ l : List β, l.Chain' r → (List.orderedInsert r a l).Chain' r := by
  intro l
  induction l with
  | nil =>
    intro
    simp [List.orderedInsert]
  | cons b t ih =>
    intro hch
    rw [List.orderedInsert]
    by_cases hr : r a b
    · rw [if_pos hr]
      exact List.chain'_cons.mpr ⟨hr, hch⟩
    · rw [if_neg hr]
      rcases t with _ | ⟨c, t'⟩
      · exact List.chain'_cons.mpr ⟨total a b hr, List.chain'_singleton a⟩
      · have hbc := (List.chain'_cons.mp hch).1
        have hct' := (List.chain'_cons.mp hch).2
        have htail := ih hct'
        rw [List.orderedInsert] at htail ⊢
        by_cases hr2 : r a c
        · rw [if_pos hr2] at htail ⊢
          exact List.chain'_cons.mpr ⟨total a b hr, htail⟩
        · rw [if_neg hr2] at htail ⊢
          exact List.chain'_cons.mpr ⟨hbc, htail⟩

theorem chain'_insertionSort {β : Type} (r : β → β → Prop) [DecidableRel r]
    (total : ∀ a b, ¬r a b → r b a) :
    ∀ l : List β, (List.insertionSort r l).Chain' r := by
  intro l
  induction l with
  | nil => simp [List.insertionSort]
  | cons a t ih =>
    rw [List.insertionSort]
    exact chain'_orderedInsert r total a _ ih

theorem idxOf_lt_length {β : Type} [DecidableEq β] {x : β} :
    ∀ {l : List β}, x ∈ l → idxOf x l < l.length := by
  intro l
  induction l with
  | nil => intro h; cases h
  | cons y t ih =>
    intro h
    by_cases he : y = x
    · simp [idxOf, he]
    · rcases List.mem_cons.mp h with rfl | hm
      · exact absurd rfl he
      · simp only [idxOf, he, if_false, List.length_cons]
        exact Nat.succ_lt_succ (ih hm)

theorem getQ_idxOf {β : Type} [DecidableEq β] {x : β} :
    ∀ {l : List β}, x ∈ l → l.get? (idxOf x l) = some x := by
  intro l
  induction l with
  | nil => intro hm; cases hm
  | cons y t ih =>
    intro hm
    by_cases he : y = x
    · simp [idxOf, he]
    · rcases List.mem_cons.mp hm with rfl | hm2
      · exact absurd rfl he
      · rw [show idxOf x (y :: t) = idxOf x t + 1 from by simp [idxOf, he]]
        exact ih hm2

theorem get_idxOf {β : Type} [DecidableEq β] {x : β} {l : List β}
    (hm : x ∈ l) (h : idxOf x l < l.length) :
    l.get ⟨idxOf x l, h⟩ = x := by
  have h1 := getQ_idxOf hm
  rw [List.get?_eq_get h] at h1
  exact Option.some_inj.mp h1

theorem map_idxOf_self {β : Type} [DecidableEq β] :
    ∀ l : List β, l.Nodup →
      l.map (fun x => idxOf x l) = List.range l.length := by
  intro l
  induction l with
  | nil => intro; rfl
  | cons a t ih =>
    intro h
    have hn : a ∉ t := (List.nodup_cons.mp h).1
    have ht : t.Nodup := (List.nodup_cons.mp h).2
    rw [List.map_cons, show idxOf a (a :: t) = 0 from by simp [idxOf]]
    have hshift : t.map (fun x => idxOf x (a :: t)) =
        t.map (fun x => Nat.succ (idxOf x t)) := by
      apply List.map_congr_left
      intro x hx
      have : a ≠ x := fun he => hn (he ▸ hx)
      simp [idxOf, this]
    rw [hshift,
      show (fun x => Nat.succ (idxOf x t)) =
        Nat.succ ∘ (fun x => idxOf x t) from rfl,
      ← List.map_map, ih ht, List.length_cons, List.range_succ_eq_map]

/-- Claim C2 (amended): for N ≥ 2 matches sharing one `patternId`, the
assigned `repeatIndex` values are exactly a permutation of `{0, …, N-1}` and
every match gets `repeatTotal = N`.  The matches are ordered by the pairwise
comparator (signed `y` difference beyond the 20-unit band, else signed `x`
difference); because that comparator is not transitive, the global
bucket-then-`x` ordering of the original claim can fail (see the
counterexample), but when all N matches lie within one 20-unit `y`-band the
comparator degenerates to the `x` order and a smaller `repeatIndex` implies
an `x` no greater. -/
theorem claim_C2_repeat_index_assignment (ps : List RMatch) (pid : String)
    (hlen : 2 ≤ ps.length) (hall : ∀ p ∈ ps, p.patternId = pid) :
    ((detectRepeatablePatterns ps).map (fun q => q.repeatIndex)).Perm
      (List.range ps.length) ∧
    (∀ q ∈ detectRepeatablePatterns ps, q.repeatTotal = some ps.length) ∧
    ((∀ a ∈ ps, ∀ b ∈ ps, |a.y - b.y| ≤ 20) →
      ∀ q1 ∈ detectRepeatablePatterns ps, ∀ q2 ∈ detectRepeatablePatterns ps,
        q1.repeatIndex < q2.repeatIndex → q1.x ≤ q2.x) := by
  have hlen_eps : ps.enum.length = ps.length := List.enum_length
  have hnodup_eps : ps.enum.Nodup := (List.nodup_enum_map_fst ps).of_map _
  have hmem_ps : ∀ ip ∈ ps.enum, ip.2 ∈ ps := by
    intro ip hip
    obtain ⟨i, p⟩ := ip
    rw [List.enum_eq_zip_range] at hip
    exact (List.of_mem_zip hip).2
  have hmap : detectRepeatablePatterns ps = ps.enum.map (fun ip =>
      { ip.2 with
          repeatIndex := idxOf ip (List.insertionSort rmatchLe ps.enum),
          repeatTotal := some ps.enum.length }) := by
    unfold detectRepeatablePatterns
    refine List.map_congr_left ?_
    intro ip hip
    have hgrp : ps.enum.filter
        (fun jq => decide (jq.2.patternId = ip.2.patternId)) = ps.enum := by
      apply List.filter_eq_self.mpr
      intro jq hjq
      simp only [decide_eq_true_eq]
      rw [hall jq.2 (hmem_ps jq hjq), hall ip.2 (hmem_ps ip hip)]
    simp only [hgrp]
    rw [if_neg (by omega : ¬ps.enum.length ≤ 1)]
  have hperm_es : ps.enum.Perm (List.insertionSort rmatchLe ps.enum) :=
    (List.perm_insertionSort rmatchLe ps.enum).symm
  have hnodup_sorted : (List.insertionSort rmatchLe ps.enum).Nodup :=
    hperm_es.nodup_iff.mp hnodup_eps
  refine ⟨?_, ?_, ?_⟩
  · rw [hmap, List.map_map]
    have h1 : ((fun q : RMatch => q.repeatIndex) ∘ (fun ip : Nat × RMatch =>
        { ip.2 with
            repeatIndex := idxOf ip (List.insertionSort rmatchLe ps.enum),
            repeatTotal := some ps.enum.length })) =
        fun ip => idxOf ip (List.insertionSort rmatchLe ps.enum) := rfl
    rw [h1]
    have h2 := hperm_es.map
      (fun ip => idxOf ip (List.insertionSort rmatchLe ps.enum))
    refine h2.trans ?_
    rw [map_idxOf_self _ hnodup_sorted, ← hperm_es.length_eq, hlen_eps]
  · intro q hq
    rw [hmap] at hq
    obtain ⟨ip, hip, rfl⟩ := List.mem_map.mp hq
    show some ps.enum.length = some ps.length
    rw [hlen_eps]
  · intro hband q1 hq1 q2 hq2 hlt
    have hconv : ∀ u v : Nat × RMatch, u.2 ∈ ps → v.2 ∈ ps →
        rmatchLe u v → u.2.x ≤ v.2.x := by
      intro u v hu hv hr
      have hb := hband u.2 hu v.2 hv
      unfold rmatchLe rmatchCmpVal at hr
      simp only [ratSub_eq, jsAbs_eq, mkRat_twenty] at hr
      rw [if_neg (not_lt.mpr hb)] at hr
      linarith
    have hchainx : (List.insertionSort rmatchLe ps.enum).Chain'
        (fun u v : Nat × RMatch => u.2.x ≤ v.2.x) := by
      rw [List.chain'_iff_get]
      intro i hi
      have hc := List.chain'_iff_get.mp
        (chain'_insertionSort rmatchLe rmatchLe_total ps.enum) i hi
      have hu2 : (List.insertionSort rmatchLe ps.enum).get
          ⟨i, by omega⟩ ∈ ps.enum :=
        (List.mem_insertionSort rmatchLe).mp (List.get_mem _ _ _)
      have hv2 : (List.insertionSort rmatchLe ps.enum).get
          ⟨i + 1, by omega⟩ ∈ ps.enum :=
        (List.mem_insertionSort rmatchLe).mp (List.get_mem _ _ _)
      exact hconv _ _ (hmem_ps _ hu2) (hmem_ps _ hv2) hc
    haveI : IsTrans (Nat × RMatch) (fun u v => u.2.x ≤ v.2.x) :=
      ⟨fun _ _ _ hab hbc => le_trans hab hbc⟩
    have hpw := List.chain'_iff_pairwise.mp hchainx
    rw [hmap] at hq1 hq2
    obtain ⟨ip1, hip1, rfl⟩ := List.mem_map.mp hq1
    obtain ⟨ip2, hip2, rfl⟩ := List.mem_map.mp hq2
    have hm1 : ip1 ∈ List.insertionSort rmatchLe ps.enum :=
      (List.mem_insertionSort rmatchLe).mpr hip1
    have hm2 : ip2 ∈ List.insertionSort rmatchLe ps.enum :=
      (List.mem_insertionSort rmatchLe).mpr hip2
    have hi1 : idxOf ip1 (List.insertionSort rmatchLe ps.enum) <
        (List.insertionSort rmatchLe ps.enum).length := idxOf_lt_length hm1
    have hi2 : idxOf ip2 (List.insertionSort rmatchLe ps.enum) <
        (List.insertionSort rmatchLe ps.enum).length := idxOf_lt_length hm2
    have hgot := List.pairwise_iff_get.mp hpw ⟨_, hi1⟩ ⟨_, hi2⟩ hlt
    rw [get_idxOf hm1 hi1, get_idxOf hm2 hi2] at hgot
    exact hgot

/-- C2 counterexample data: three matches whose pairwise comparisons form a
cycle (the comparator is not transitive): at (x=20,y=90), (x=0,y=120) and
(x=10,y=105), the first and third lie in one 20-unit `y`-band. -/
def psC2 : List RMatch :=
  [⟨"guest", mkRat 20 1, mkRat 90 1, 0, none⟩,
    ⟨"guest", mkRat 0 1, mkRat 120 1, 0, none⟩,
    ⟨"guest", mkRat 10 1, mkRat 105 1, 0, none⟩]

/-- The claim's pair property fails: the matches at y=90 (x=20) and y=105
(x=10) are within the 20-unit band and 10 < 20, yet the x=10 match receives
repeatIndex 2 and the x=20 match receives repeatIndex 0. -/
theorem claim_C2_counterexample :
    (detectRepeatablePatterns psC2).map (fun q => (q.x, q.y, q.repeatIndex)) =
      [(mkRat 20 1, mkRat 90 1, 0), (mkRat 0 1, mkRat 120 1, 1),
        (mkRat 10 1, mkRat 105 1, 2)] ∧
    |(mkRat 105 1 : Rat) - mkRat 90 1| ≤ 20 ∧
    (mkRat 10 1 : Rat) < mkRat 20 1 ∧
    ¬(∀ q1 ∈ detectRepeatablePatterns psC2,
        ∀ q2 ∈ detectRepeatablePatterns psC2,
        |q1.y - q2.y| ≤ 20 → q1.x < q2.x → q1.repeatIndex < q2.repeatIndex) := by
  refine ⟨by decide, by norm_num [Rat.mkRat_eq_div], by decide, ?_⟩
  intro hclaim
  have hq1 : (⟨"guest", mkRat 10 1, mkRat 105 1, 2, some 3⟩ : RMatch) ∈
      detectRepeatablePatterns psC2 := by decide
  have hq2 : (⟨"guest", mkRat 20 1, mkRat 90 1, 0, some 3⟩ : RMatch) ∈
      detectRepeatablePatterns psC2 := by decide
  have hcontra := hclaim _ hq1 _ hq2 (by norm_num [Rat.mkRat_eq_div])
    (by decide)
  exact absurd hcontra (by decide)

/-- C2 witness data: two matches in one 20-unit `y`-band. -/
def psC2w : List RMatch :=
  [⟨"guest", mkRat 30 1, mkRat 0 1, 0, none⟩,
    ⟨"guest", mkRat 10 1, mkRat 5 1, 0, none⟩]

theorem claim_C2_witness :
    2 ≤ psC2w.length ∧
    (((detectRepeatablePatterns psC2w).map (fun q => q.repeatIndex)).Perm
        (List.range psC2w.length) ∧
      (∀ q ∈ detectRepeatablePatterns psC2w,
        q.repeatTotal = some psC2w.length) ∧
      ((∀ a ∈ psC2w, ∀ b ∈ psC2w, |a.y - b.y| ≤ 20) →
        ∀ q1 ∈ detectRepeatablePatterns psC2w,
          ∀ q2 ∈ detectRepeatablePatterns psC2w,
          q1.repeatIndex < q2.repeatIndex → q1.x ≤ q2.x)) ∧
    (detectRepeatablePatterns psC2w).map (fun q => (q.x, q.repeatIndex)) =
      [(mkRat 30 1, 1), (mkRat 10 1, 0)] :=
  ⟨by decide,
    claim_C2_repeat_index_assignment psC2w "guest" (by decide)
      (by intro p hp; fin_cases hp <;> rfl),
    by decide⟩
